import Mathlib

/-! Vevor PWM bus: pulse encoder and frame decoder.

A shallow embedding of `components/vevor_pwm/vevor_bus.cpp`:

* `vevor_send_byte` builds the ten `rmt_item32_t` records handed to
  `rmt_write_items`;
* the body of the `for` loop of `vevor_rx_task` is `rx_item`, the loop over a
  stream of captured records is `rx_loop`, and the outer `while (true)` over
  batches taken from the ring buffer is `vevor_rx_task`.

Integers: `uint16_t value` is a `Nat` reduced modulo `2 ^ 16` at every store,
`uint32_t` arithmetic of the encoder is reduced modulo `2 ^ 32`, the `int64_t`
clock readings of `esp_timer_get_time` are `Int` (microseconds since boot; the
difference of two readings cannot leave the 64-bit range), and the `int`
counters `bit_count`, `expected_bits` are `Nat` (they stay within `0..16`).
-/

namespace Vevor

/-! ## Timing table (the `#define`s) -/

def BIT_ONE_LOW_US : Nat := 4000
def BIT_ZERO_LOW_US : Nat := 8000
def BIT_PERIOD_US : Nat := 12100

def PRE_LOW_1MS_MIN : Nat := 800
def PRE_LOW_1MS_MAX : Nat := 3000

def START_HIGH_30MS_MIN : Nat := 28000
def START_HIGH_30MS_MAX : Nat := 32000

/-- The idle window of the decoder, the literal `80000` of the `80 ms silence` test. -/
def IDLE_US : Int := 80000

/-! ## Data model -/

/-- One record of the capture/transmit peripheral (`rmt_item32_t`): two half
pulses, each a level and a duration in microseconds (one tick is 1 us with
`RMT_CLK_DIV = 80`).  The peripheral's declaration stores each duration in a
15-bit field; the decoder copies them into `uint32_t` locals. -/
structure rmt_item32_t where
  level0 : Bool
  duration0 : Nat
  level1 : Bool
  duration1 : Nat
  deriving DecidableEq, Repr

/-- What one iteration of the decoder loop reads from outside: the record
`rx_items[i]`, the clock reading `now_us` taken at the top of the iteration, and
the reading `done_us` that `esp_timer_get_time()` returns when the iteration
reaches the frame-complete branch. -/
structure Pulse where
  item : rmt_item32_t
  now_us : Int
  done_us : Int
  deriving DecidableEq, Repr

/-- The local variables of `vevor_rx_task` that live across loop iterations. -/
structure RxState where
  got_8bit : Bool
  got_16bit : Bool
  last_activity_us : Int
  waiting_for_start : Bool
  saw_1ms_low : Bool
  bit_count : Nat
  expected_bits : Nat
  value : Nat
  deriving DecidableEq, Repr

/-- A call of `vevor_on_byte_received`, tagged by the call site: `byte b` is
the call `vevor_on_byte_received(b, 0)`, `word w` is the call
`vevor_on_byte_received(0, value)`. -/
inductive Call where
  | byte (b : Nat)
  | word (w : Nat)
  deriving DecidableEq, Repr

/-- The two arguments `(uint8_t, uint16_t)` a call passes to the callback. -/
def Call.args : Call → Nat × Nat
  | Call.byte b => (b, 0)
  | Call.word w => (0, w)

def Call.isByte : Call → Bool
  | Call.byte _ => true
  | Call.word _ => false

def Call.isWord : Call → Bool
  | Call.byte _ => false
  | Call.word _ => true

/-! ## Encoder -/

/-- The four stores of the loop body of `vevor_send_byte` for a bit `bit`:
`low = bit ? BIT_ONE_LOW_US : BIT_ZERO_LOW_US`, `high = BIT_PERIOD_US - low`
in `uint32_t`, first half low for `low`, second half high for `high`. -/
def bit_item (bit : Bool) : rmt_item32_t :=
  let low : Nat := if bit then BIT_ONE_LOW_US else BIT_ZERO_LOW_US
  let high : Nat := (BIT_PERIOD_US + 2 ^ 32 - low) % 2 ^ 32
  { level0 := false, duration0 := low, level1 := true, duration1 := high }

/-- The body of the `for` loop of `vevor_send_byte` for index `i`: the record
stored in `items[i + 2]`, for `bit = data & (1 << (7 - i))`. -/
def send_bit_item (data : Nat) (i : Nat) : rmt_item32_t :=
  bit_item ((data &&& (1 <<< (7 - i))) != 0)

/-- The array `items[10]` that `vevor_send_byte(data)` passes to
`rmt_write_items`, as a list in index order. -/
def vevor_send_byte (data : Nat) : List rmt_item32_t :=
  { level0 := true, duration0 := 10000, level1 := true, duration1 := 10000 } ::
  { level0 := true, duration0 := 5000, level1 := true, duration1 := 5000 } ::
  (List.range 8).map (send_bit_item data)

/-! ## Decoder -/

/-- The values of the locals before `while (true)`. -/
def rx_init : RxState :=
  { got_8bit := false, got_16bit := false, last_activity_us := 0,
    waiting_for_start := true, saw_1ms_low := false,
    bit_count := 0, expected_bits := 8, value := 0 }

/-- The condition of the pre-pulse test without its `waiting_for_start`
conjunct: one half is low with a duration inside the open preamble window. -/
def pre_low (it : rmt_item32_t) : Bool :=
  (it.level0 == false && decide (it.duration0 > PRE_LOW_1MS_MIN)
      && decide (it.duration0 < PRE_LOW_1MS_MAX)) ||
  (it.level1 == false && decide (it.duration1 > PRE_LOW_1MS_MIN)
      && decide (it.duration1 < PRE_LOW_1MS_MAX))

/-- The condition of the start-pulse test: one half is high with a duration
inside the open start window. -/
def start_high (it : rmt_item32_t) : Bool :=
  (it.level0 == true && decide (it.duration0 > START_HIGH_30MS_MIN)
      && decide (it.duration0 < START_HIGH_30MS_MAX)) ||
  (it.level1 == true && decide (it.duration1 > START_HIGH_30MS_MIN)
      && decide (it.duration1 < START_HIGH_30MS_MAX))

/-- The condition `now_us - last_activity_us > 80000` of the idle check. -/
def idle_fires (s : RxState) (p : Pulse) : Bool :=
  decide (p.now_us - s.last_activity_us > IDLE_US)

/-- The idle check at the top of the loop body. -/
def idle_check (s : RxState) (p : Pulse) : RxState :=
  if idle_fires s p then { s with got_8bit := false, got_16bit := false } else s

/-- The start-pulse block of the loop body. -/
def start_check (s : RxState) (it : rmt_item32_t) : RxState :=
  if start_high it then
    { s with expected_bits := if s.saw_1ms_low then 16 else 8,
             saw_1ms_low := false,
             waiting_for_start := false,
             bit_count := 0,
             value := 0 }
  else s

/-- The selection of `low_us`: the first half when it is low, else the second
half when it is low, else the record is skipped (`none`). -/
def low_us (it : rmt_item32_t) : Option Nat :=
  if it.level0 == false then some it.duration0
  else if it.level1 == false then some it.duration1
  else none

/-- The bit decision `low_us < threshold` with
`threshold = (BIT_ONE_LOW_US + BIT_ZERO_LOW_US) / 2`. -/
def bit_of_low (low : Nat) : Bool :=
  decide (low < (BIT_ONE_LOW_US + BIT_ZERO_LOW_US) / 2)

/-- The store `value = (value << 1) | (bit ? 1 : 0)` into the `uint16_t`. -/
def shift_in (value : Nat) (bit : Bool) : Nat :=
  ((value <<< 1) ||| (if bit then 1 else 0)) % 2 ^ 16

/-- The block guarded by `bit_count == expected_bits`; `cb` tells whether a
callback is registered (`vevor_on_byte_received` is not null). -/
def frame_complete (cb : Bool) (s : RxState) (done_us : Int) : RxState × List Call :=
  let s1 := { s with last_activity_us := done_us }
  let r : RxState × List Call :=
    if s1.expected_bits == 8 && !s1.got_8bit then
      let b := s1.value &&& 0xFF
      ({ s1 with got_8bit := true }, if cb then [Call.byte b] else [])
    else if s1.expected_bits == 16 && s1.got_8bit && !s1.got_16bit then
      ({ s1 with got_16bit := true }, if cb then [Call.word s1.value] else [])
    else (s1, [])
  ({ r.1 with waiting_for_start := true, bit_count := 0, value := 0 }, r.2)

/-- One iteration of the `for` loop of `vevor_rx_task`: the new values of the
locals and the callback invocations made, in order. -/
def rx_item (cb : Bool) (s : RxState) (p : Pulse) : RxState × List Call :=
  let s1 := idle_check s p
  if s1.waiting_for_start && pre_low p.item then
    ({ s1 with saw_1ms_low := true }, [])
  else
    let s2 := start_check s1 p.item
    if s2.waiting_for_start then (s2, [])
    else
      match low_us p.item with
      | none => (s2, [])
      | some low =>
        let s3 := { s2 with value := shift_in s2.value (bit_of_low low),
                            bit_count := s2.bit_count + 1 }
        if s3.bit_count == s3.expected_bits then frame_complete cb s3 p.done_us
        else (s3, [])

/-- The `for` loop over a stream of records, from the locals `s`. -/
def rx_loop (cb : Bool) (s : RxState) : List Pulse → RxState × List Call
  | [] => (s, [])
  | p :: ps =>
    let r := rx_item cb s p
    let r2 := rx_loop cb r.1 ps
    (r2.1, r.2 ++ r2.2)

/-- A finite prefix of the `while (true)` loop: each element is what one
`xRingbufferReceive` returned, `none` for a null pointer (the `continue`). -/
def vevor_rx_task (cb : Bool) (s : RxState) : List (Option (List Pulse)) → RxState × List Call
  | [] => (s, [])
  | none :: bs => vevor_rx_task cb s bs
  | some b :: bs =>
    let r := rx_loop cb s b
    let r2 := vevor_rx_task cb r.1 bs
    (r2.1, r.2 ++ r2.2)

/-! ## Frames as the decoder receives them -/

/-- The bits of `v` from bit `n - 1` down to bit `0`, each tested the way the
encoder tests them (`v & (1 << k)`). -/
def msb_bits (n v : Nat) : List Bool :=
  (List.range n).map (fun i => (v &&& (1 <<< (n - 1 - i))) != 0)

/-- The `n` bit records that carry `v` most significant bit first, in the
encoder's bit format. -/
def frame_items (n v : Nat) : List rmt_item32_t :=
  (msb_bits n v).map bit_item

/-- No idle check fires on any of the pulses `ps` while `last_activity_us = t`. -/
def quiet (t : Int) (ps : List Pulse) : Bool :=
  ps.all (fun p => !decide (p.now_us - t > IDLE_US))

/-- The number of byte reports among the calls. -/
def byte_calls (cs : List Call) : Nat := cs.countP Call.isByte

/-- The number of word reports among the calls. -/
def word_calls (cs : List Call) : Nat := cs.countP Call.isWord

/-! ## Notions used in the statements -/

/-- The flags after the idle checks of the pulses `ps`, for a stretch of the
run in which `last_activity_us` is not written. -/
def settle (s : RxState) (ps : List Pulse) : RxState :=
  if quiet s.last_activity_us ps then s
  else { s with got_8bit := false, got_16bit := false }

/-- A start record without low half: both halves are high and one of them lies
in the start window. -/
def start_record (it : rmt_item32_t) : Bool :=
  it.level0 && it.level1 && start_high it

/-- The locals right after a completed frame of `n` bits: waiting for start
again, accumulator and counter cleared. -/
def done_state (g8 g16 : Bool) (t : Int) (n : Nat) : RxState :=
  { got_8bit := g8, got_16bit := g16, last_activity_us := t,
    waiting_for_start := true, saw_1ms_low := false,
    bit_count := 0, expected_bits := n, value := 0 }

/-- A start record as in the scenarios: 30000 us high, then a short high half. -/
def sample_start : rmt_item32_t :=
  { level0 := true, duration0 := 30000, level1 := true, duration1 := 20 }

/-- A preamble record as in the scenarios: 1500 us low, then a short high half. -/
def sample_pre : rmt_item32_t :=
  { level0 := false, duration0 := 1500, level1 := true, duration1 := 20 }

/-- The first sync record of the encoder: 10000 us high twice. -/
def sample_sync : rmt_item32_t :=
  { level0 := true, duration0 := 10000, level1 := true, duration1 := 10000 }

/-- The records `its` all processed at clock reading `t` (both readings of
every iteration return `t`). -/
def stamp (t : Int) (its : List rmt_item32_t) : List Pulse :=
  its.map (fun it => { item := it, now_us := t, done_us := t })

/-- The idle check fires on none of the pulses `ps` when the loop runs over
them from the locals `s`. -/
def no_idle (cb : Bool) (s : RxState) : List Pulse → Bool
  | [] => true
  | p :: ps => !idle_fires s p && no_idle cb (rx_item cb s p).1 ps

/-- How many byte reports the flag `got_8bit` still allows. -/
def room8 (s : RxState) : Nat := if s.got_8bit then 0 else 1

/-- How many word reports the flag `got_16bit` still allows. -/
def room16 (s : RxState) : Nat := if s.got_16bit then 0 else 1

/-- The records a finite prefix of the outer loop hands to the inner loop, in
order: the batches concatenated, null receives dropped. -/
def received : List (Option (List Pulse)) → List Pulse
  | [] => []
  | none :: bs => received bs
  | some b :: bs => b ++ received bs

/-- The iteration reaches the block guarded by `bit_count == expected_bits`:
the path conditions of the loop body up to and including that test. -/
def completes (s : RxState) (p : Pulse) : Bool :=
  let s1 := idle_check s p
  if s1.waiting_for_start && pre_low p.item then false
  else
    let s2 := start_check s1 p.item
    if s2.waiting_for_start then false
    else
      match low_us p.item with
      | none => false
      | some _ => s2.bit_count + 1 == s2.expected_bits

/-- The number written most significant bit first by the bits `bs`: the bit
at position `i` (from 1) of `n` bits weighs `2 ^ (n - i)`. -/
def msb_sum : List Bool → Nat
  | [] => 0
  | b :: bs => (if b then 1 else 0) * 2 ^ bs.length + msb_sum bs

/-- The bit decisions the decoder takes on the records `ps`, each from the
low duration that `low_us` selects. -/
def bits_of (ps : List Pulse) : List Bool :=
  ps.map (fun p => bit_of_low ((low_us p.item).getD 0))

/-- A record that carries a low half and no high half in the start window. -/
def bit_record (it : rmt_item32_t) : Bool :=
  (low_us it).isSome && !start_high it

/-- A start record whose second half is the low phase of the first bit, as the
capture peripheral pairs them: 30000 us high, then 4000 us low. -/
def sample_start_low : rmt_item32_t :=
  { level0 := true, duration0 := 30000, level1 := false, duration1 := 4000 }

set_option maxRecDepth 8000

theorem and_shift_ne_zero (v k : Nat) : ((v &&& (1 <<< k)) != 0) = v.testBit k := by
  rw [Nat.one_shiftLeft]
  cases h : v.testBit k
  · have hz : v &&& 2 ^ k = 0 := by
      apply Nat.eq_of_testBit_eq
      intro i
      rw [Nat.testBit_and, Nat.testBit_two_pow, Nat.zero_testBit]
      by_cases hki : k = i
      · subst hki; simp [h]
      · simp [hki]
    simp [hz]
  · have hb : (v &&& 2 ^ k).testBit k = true := by
      rw [Nat.testBit_and, Nat.testBit_two_pow, h]; simp
    have hne : v &&& 2 ^ k ≠ 0 := by
      intro h0; rw [h0, Nat.zero_testBit] at hb; exact Bool.noConfusion hb
    simp [hne]

theorem shift_in_eq (v : Nat) (b : Bool) :
    shift_in v b = (2 * v + (if b then 1 else 0)) % 2 ^ 16 := by
  unfold shift_in
  have hlt : (if b then 1 else 0) < 2 ^ 1 := by cases b <;> simp
  rw [Nat.shiftLeft_eq, Nat.mul_comm v, ← Nat.mul_add_lt_is_or hlt]

theorem msb_bits_succ (n v : Nat) :
    msb_bits (n + 1) v = msb_bits n (v / 2) ++ [v.testBit 0] := by
  unfold msb_bits
  rw [List.range_succ, List.map_append]
  congr 1
  · apply List.map_congr_left
    intro i hi
    have hi2 : i < n := List.mem_range.mp hi
    rw [and_shift_ne_zero, and_shift_ne_zero, Nat.testBit_div_two]
    congr 1
    omega
  · simp [and_shift_ne_zero]

theorem foldl_shift_in_msb_bits (n v : Nat) (hn : n ≤ 16) :
    (msb_bits n v).foldl shift_in 0 = v % 2 ^ n := by
  induction n generalizing v with
  | zero => simp [msb_bits, Nat.mod_one]
  | succ n ih =>
    rw [msb_bits_succ, List.foldl_append, ih (v / 2) (by omega)]
    simp only [List.foldl_cons, List.foldl_nil]
    rw [shift_in_eq]
    have hb : (if v.testBit 0 = true then 1 else 0) = v % 2 := by
      rw [Nat.testBit_zero]
      rcases Nat.mod_two_eq_zero_or_one v with h | h <;> simp [h]
    have hp : 2 ^ (n + 1) = 2 * 2 ^ n := by rw [Nat.pow_succ, Nat.mul_comm]
    rw [hb, hp, Nat.mod_mul (a := 2) (b := 2 ^ n) (x := v)]
    have h1 : v % 2 + 2 * (v / 2 % 2 ^ n) < 2 * 2 ^ n := by
      rw [← Nat.mod_mul]; exact Nat.mod_lt _ (by positivity)
    have h2 : 2 * 2 ^ n ≤ 2 ^ 16 := by
      rw [← hp]; exact Nat.pow_le_pow_right (by decide) (by omega)
    rw [Nat.add_comm, Nat.mod_eq_of_lt (by omega)]

/-! ## One loop iteration, case by case -/

theorem idle_check_last (s : RxState) (p : Pulse) :
    (idle_check s p).last_activity_us = s.last_activity_us := by
  unfold idle_check; split <;> rfl

theorem idle_check_waiting (s : RxState) (p : Pulse) :
    (idle_check s p).waiting_for_start = s.waiting_for_start := by
  unfold idle_check; split <;> rfl

theorem idle_check_bit_count (s : RxState) (p : Pulse) :
    (idle_check s p).bit_count = s.bit_count := by
  unfold idle_check; split <;> rfl

theorem idle_check_expected (s : RxState) (p : Pulse) :
    (idle_check s p).expected_bits = s.expected_bits := by
  unfold idle_check; split <;> rfl

theorem idle_check_value (s : RxState) (p : Pulse) :
    (idle_check s p).value = s.value := by
  unfold idle_check; split <;> rfl

theorem idle_check_saw (s : RxState) (p : Pulse) :
    (idle_check s p).saw_1ms_low = s.saw_1ms_low := by
  unfold idle_check; split <;> rfl

theorem rx_item_pre (cb : Bool) (s : RxState) (p : Pulse)
    (hw : s.waiting_for_start = true) (hp : pre_low p.item = true) :
    rx_item cb s p = ({ idle_check s p with saw_1ms_low := true }, []) := by
  simp [rx_item, idle_check_waiting, hw, hp]

theorem rx_item_discard (cb : Bool) (s : RxState) (p : Pulse)
    (hw : s.waiting_for_start = true) (hp : pre_low p.item = false)
    (hs : start_high p.item = false) :
    rx_item cb s p = (idle_check s p, []) := by
  simp [rx_item, start_check, idle_check_waiting, hw, hp, hs]

theorem rx_item_start (cb : Bool) (s : RxState) (p : Pulse)
    (hp : s.waiting_for_start = false ∨ pre_low p.item = false)
    (hs : start_high p.item = true) (hl : low_us p.item = none) :
    rx_item cb s p = (start_check (idle_check s p) p.item, []) := by
  have hc : ((idle_check s p).waiting_for_start && pre_low p.item) = false := by
    rw [idle_check_waiting]; rcases hp with h | h <;> simp [h]
  simp [rx_item, hc, hl, start_check, hs]

theorem rx_item_bit (cb : Bool) (s : RxState) (p : Pulse) (low : Nat)
    (hw : s.waiting_for_start = false) (hs : start_high p.item = false)
    (hl : low_us p.item = some low) (hn : s.bit_count + 1 ≠ s.expected_bits) :
    rx_item cb s p =
      ({ idle_check s p with value := shift_in s.value (bit_of_low low),
                             bit_count := s.bit_count + 1 }, []) := by
  simp [rx_item, start_check, idle_check_waiting, idle_check_bit_count, idle_check_expected,
    idle_check_value, hw, hs, hl, hn]

theorem rx_item_last (cb : Bool) (s : RxState) (p : Pulse) (low : Nat)
    (hw : s.waiting_for_start = false) (hs : start_high p.item = false)
    (hl : low_us p.item = some low) (hn : s.bit_count + 1 = s.expected_bits) :
    rx_item cb s p =
      frame_complete cb
        { idle_check s p with value := shift_in s.value (bit_of_low low),
                              bit_count := s.bit_count + 1 } p.done_us := by
  simp [rx_item, start_check, idle_check_waiting, idle_check_bit_count, idle_check_expected,
    idle_check_value, hw, hs, hl, hn]

/-! ## The encoder's bit records as seen by the decoder -/

theorem pre_low_bit_item (b : Bool) : pre_low (bit_item b) = false := by
  cases b <;> decide

theorem start_high_bit_item (b : Bool) : start_high (bit_item b) = false := by
  cases b <;> decide

theorem low_us_bit_item (b : Bool) :
    low_us (bit_item b) = some (if b then BIT_ONE_LOW_US else BIT_ZERO_LOW_US) := by
  cases b <;> rfl

theorem bit_of_low_bit_item (b : Bool) :
    bit_of_low (if b then BIT_ONE_LOW_US else BIT_ZERO_LOW_US) = b := by
  cases b <;> decide

theorem rx_loop_append (cb : Bool) (s : RxState) (ps qs : List Pulse) :
    rx_loop cb s (ps ++ qs) =
      ((rx_loop cb (rx_loop cb s ps).1 qs).1,
        (rx_loop cb s ps).2 ++ (rx_loop cb (rx_loop cb s ps).1 qs).2) := by
  induction ps generalizing s with
  | nil => simp [rx_loop]
  | cons p ps ih => simp [rx_loop, ih, List.append_assoc]

theorem settle_nil (s : RxState) : settle s [] = s := by
  simp [settle, quiet]

theorem settle_cons (s : RxState) (p : Pulse) (ps : List Pulse) :
    settle (idle_check s p) ps = settle s (p :: ps) := by
  unfold settle idle_check idle_fires quiet
  by_cases h : p.now_us - s.last_activity_us > IDLE_US <;> simp [h]

/-- Bit records that do not complete the frame: the accumulator takes the
bits, the counter advances, nothing is reported. -/
theorem rx_loop_bits (cb : Bool) (bs : List Bool) :
    ∀ (ps : List Pulse) (s : RxState),
      ps.map Pulse.item = bs.map bit_item →
      s.waiting_for_start = false →
      s.bit_count + bs.length < s.expected_bits →
      rx_loop cb s ps =
        ({ settle s ps with value := bs.foldl shift_in s.value,
                            bit_count := s.bit_count + bs.length }, []) := by
  induction bs with
  | nil =>
    intro ps s hm _ _
    have : ps = [] := by simpa using hm
    subst this
    simp [rx_loop, settle_nil]
  | cons b bs ih =>
    intro ps s hm hw hlt
    cases ps with
    | nil => simp at hm
    | cons p ps =>
      simp only [List.map_cons, List.cons.injEq] at hm
      obtain ⟨hp, hps⟩ := hm
      have hstep := rx_item_bit cb s p _ hw (by rw [hp]; exact start_high_bit_item b)
        (by rw [hp]; exact low_us_bit_item b)
        (by simp only [List.length_cons] at hlt; omega)
      rw [bit_of_low_bit_item] at hstep
      simp only [rx_loop, hstep]
      rw [ih ps _ hps (by simp [idle_check_waiting, hw])
        (by simp only [List.length_cons] at hlt
            simp only [idle_check_expected]; omega)]
      simp only [List.nil_append, List.foldl_cons, List.length_cons, Prod.mk.injEq, and_true]
      rw [← settle_cons]
      unfold settle
      simp only [idle_check_last]
      split <;> simp [Nat.add_assoc, Nat.add_comm 1, idle_check_last]

theorem settle_concat (s : RxState) (ps : List Pulse) (p : Pulse) :
    idle_check (settle s ps) p = settle s (ps ++ [p]) := by
  unfold settle idle_check idle_fires quiet
  by_cases h1 : (ps.all fun p => !decide (p.now_us - s.last_activity_us > IDLE_US)) = true
  · by_cases h2 : p.now_us - s.last_activity_us > IDLE_US <;> simp [h1, h2]
  · by_cases h2 : p.now_us - s.last_activity_us > IDLE_US <;> simp [h1, h2]

theorem msb_bits_length (n v : Nat) : (msb_bits n v).length = n := by
  simp [msb_bits]

/-- From a collecting state with an empty accumulator, `n` bit records carrying
`v` run into the frame-complete block with `value = v mod 2 ^ n`. -/
theorem rx_loop_collect (cb : Bool) (n v : Nat) (ps : List Pulse) (pl : Pulse) (s : RxState)
    (hn : n ≤ 16) (hw : s.waiting_for_start = false) (hc : s.bit_count = 0)
    (hv : s.value = 0) (he : s.expected_bits = n)
    (hm : (ps ++ [pl]).map Pulse.item = frame_items n v) :
    rx_loop cb s (ps ++ [pl]) =
      frame_complete cb
        { settle s (ps ++ [pl]) with value := v % 2 ^ n, bit_count := n } pl.done_us := by
  cases n with
  | zero => simp [frame_items, msb_bits] at hm
  | succ m =>
    have hval := foldl_shift_in_msb_bits (m + 1) v hn
    rw [msb_bits_succ, List.foldl_append] at hval
    simp only [List.foldl_cons, List.foldl_nil] at hval
    unfold frame_items at hm
    rw [msb_bits_succ, List.map_append, List.map_append] at hm
    have hlen : (ps.map Pulse.item).length = ((msb_bits m (v / 2)).map bit_item).length := by
      have := congrArg List.length hm
      simp only [List.length_append, List.length_map, List.length_singleton] at this
      simp only [List.length_map]; omega
    obtain ⟨hps, hpl⟩ := List.append_inj hm hlen
    simp only [List.map_cons, List.map_nil, List.cons.injEq, and_true] at hpl
    have hbits := rx_loop_bits cb (msb_bits m (v / 2)) ps s hps hw
      (by rw [msb_bits_length, hc, he]; omega)
    have hlast := rx_item_last cb
      { settle s ps with value := (msb_bits m (v / 2)).foldl shift_in s.value,
                         bit_count := s.bit_count + (msb_bits m (v / 2)).length } pl _
      (by unfold settle; split <;> simp [hw])
      (by rw [hpl]; exact start_high_bit_item _)
      (by rw [hpl]; exact low_us_bit_item _)
      (by rw [msb_bits_length, hc]; unfold settle; split <;> simp [he])
    rw [bit_of_low_bit_item] at hlast
    have hstate :
        ({ idle_check
            { settle s ps with value := (msb_bits m (v / 2)).foldl shift_in s.value,
                               bit_count := s.bit_count + (msb_bits m (v / 2)).length } pl with
            value := shift_in ((msb_bits m (v / 2)).foldl shift_in s.value) (v.testBit 0),
            bit_count := s.bit_count + (msb_bits m (v / 2)).length + 1 } : RxState) =
        { settle s (ps ++ [pl]) with value := v % 2 ^ (m + 1), bit_count := m + 1 } := by
      rw [← settle_concat]
      simp only [hv, hval, msb_bits_length, hc, Nat.zero_add]
      unfold idle_check idle_fires settle
      split <;> split <;> simp_all
    rw [hstate] at hlast
    rw [rx_loop_append, hbits]
    simp only [rx_loop, List.nil_append, List.append_nil, hlast]

theorem start_record_pre_low (it : rmt_item32_t) (h : start_record it = true) :
    pre_low it = false := by
  unfold start_record at h
  unfold pre_low
  simp only [Bool.and_eq_true] at h
  simp [h.1.1, h.1.2]

theorem start_record_start_high (it : rmt_item32_t) (h : start_record it = true) :
    start_high it = true := by
  unfold start_record at h
  simp only [Bool.and_eq_true] at h
  exact h.2

theorem start_record_low_us (it : rmt_item32_t) (h : start_record it = true) :
    low_us it = none := by
  unfold start_record at h
  unfold low_us
  simp only [Bool.and_eq_true] at h
  simp [h.1.1, h.1.2]

/-- A start record without low half followed by as many bit records as the
start latched: the run ends in the frame-complete block of the last record. -/
theorem rx_loop_frame (cb : Bool) (n v : Nat) (x0 : Pulse) (ps : List Pulse) (pl : Pulse)
    (s : RxState) (hx : start_record x0.item = true)
    (hn : n = if s.saw_1ms_low then 16 else 8)
    (hm : (ps ++ [pl]).map Pulse.item = frame_items n v) :
    rx_loop cb s (x0 :: (ps ++ [pl])) =
      frame_complete cb
        { settle s (x0 :: (ps ++ [pl])) with
            expected_bits := n, saw_1ms_low := false, waiting_for_start := false,
            value := v % 2 ^ n, bit_count := n } pl.done_us := by
  have hstart := rx_item_start cb s x0 (Or.inr (start_record_pre_low _ hx))
    (start_record_start_high _ hx) (start_record_low_us _ hx)
  have hcol := rx_loop_collect cb n v ps pl (start_check (idle_check s x0) x0.item)
    (by rw [hn]; split <;> omega)
    (by simp [start_check, start_record_start_high _ hx])
    (by simp [start_check, start_record_start_high _ hx])
    (by simp [start_check, start_record_start_high _ hx])
    (by simp [start_check, start_record_start_high _ hx, idle_check_saw, hn])
    hm
  have hstate :
      ({ settle (start_check (idle_check s x0) x0.item) (ps ++ [pl]) with
          value := v % 2 ^ n, bit_count := n } : RxState) =
      { settle s (x0 :: (ps ++ [pl])) with
          expected_bits := n, saw_1ms_low := false, waiting_for_start := false,
          value := v % 2 ^ n, bit_count := n } := by
    rw [← settle_cons]
    simp only [start_check, start_record_start_high _ hx, if_true]
    unfold settle
    simp only [idle_check_last]
    split <;> simp [idle_check_saw, idle_check_last, hn]
  rw [hstate] at hcol
  simp only [rx_loop, hstart, List.nil_append, hcol]

theorem frame_items_split (n v : Nat) (hn : 0 < n) (ps : List Pulse)
    (hm : ps.map Pulse.item = frame_items n v) :
    ∃ qs pl, ps = qs ++ [pl] := by
  rcases List.eq_nil_or_concat ps with h | ⟨qs, pl, h⟩
  · subst h
    have := congrArg List.length hm
    simp [frame_items, msb_bits_length] at this
    omega
  · exact ⟨qs, pl, by rw [h, List.concat_eq_append]⟩

/-- An 8-bit frame (start record without low half, then the eight bit records
of `V`) processed from any state whose preamble flag is clear. -/
theorem rx_loop_frame8 (cb : Bool) (s : RxState) (x0 : Pulse) (ps : List Pulse) (V : Nat)
    (hx : start_record x0.item = true) (hsaw : s.saw_1ms_low = false)
    (hm : ps.map Pulse.item = frame_items 8 V) (hV : V < 256) :
    ∃ t, rx_loop cb s (x0 :: ps) =
      (done_state true (settle s (x0 :: ps)).got_16bit t 8,
        if (settle s (x0 :: ps)).got_8bit then []
        else if cb then [Call.byte V] else []) := by
  obtain ⟨qs, pl, rfl⟩ := frame_items_split 8 V (by decide) ps hm
  refine ⟨pl.done_us, ?_⟩
  rw [rx_loop_frame cb 8 V x0 qs pl s hx (by simp [hsaw]) hm]
  have hV2 : V % 256 = V := Nat.mod_eq_of_lt hV
  have hV3 : V &&& 255 = V := by
    have := Nat.and_pow_two_sub_one_of_lt_two_pow (n := 8) (x := V) hV
    simpa using this
  cases hg : (settle s (x0 :: (qs ++ [pl]))).got_8bit <;>
    simp [frame_complete, done_state, hg, hV2, hV3]

/-- A 16-bit frame (preamble record, start record without low half, then the
sixteen bit records of `W`) processed from any state waiting for start. -/
theorem rx_loop_frame16 (cb : Bool) (s : RxState) (x1 x0 : Pulse) (ps : List Pulse) (W : Nat)
    (hw : s.waiting_for_start = true) (hx1 : pre_low x1.item = true)
    (hx : start_record x0.item = true)
    (hm : ps.map Pulse.item = frame_items 16 W) (hW : W < 65536) :
    ∃ t, rx_loop cb s (x1 :: x0 :: ps) =
      (done_state (settle s (x1 :: x0 :: ps)).got_8bit
          ((settle s (x1 :: x0 :: ps)).got_16bit || (settle s (x1 :: x0 :: ps)).got_8bit) t 16,
        if (settle s (x1 :: x0 :: ps)).got_8bit && !(settle s (x1 :: x0 :: ps)).got_16bit then
          (if cb then [Call.word W] else [])
        else []) := by
  obtain ⟨qs, pl, rfl⟩ := frame_items_split 16 W (by decide) ps hm
  refine ⟨pl.done_us, ?_⟩
  have hpre := rx_item_pre cb s x1 hw hx1
  have hfr := rx_loop_frame cb 16 W x0 qs pl { idle_check s x1 with saw_1ms_low := true } hx
    (by simp) hm
  have hset : settle { idle_check s x1 with saw_1ms_low := true } (x0 :: (qs ++ [pl])) =
      { settle s (x1 :: x0 :: (qs ++ [pl])) with saw_1ms_low := true } := by
    rw [← settle_cons s x1]
    unfold settle
    split <;> rfl
  rw [hset] at hfr
  have hW2 : W % 65536 = W := Nat.mod_eq_of_lt hW
  rw [rx_loop, hpre]
  simp only [hfr, List.nil_append]
  cases hg : (settle s (x1 :: x0 :: (qs ++ [pl]))).got_8bit <;>
    cases hh : (settle s (x1 :: x0 :: (qs ++ [pl]))).got_16bit <;>
    simp [frame_complete, done_state, hg, hh, hW2]

/-- Batching is immaterial: the outer loop over batches is the inner loop over
the concatenated records. -/
theorem vevor_rx_task_eq_rx_loop (cb : Bool) (bs : List (Option (List Pulse))) :
    ∀ s : RxState, vevor_rx_task cb s bs = rx_loop cb s (received bs) := by
  induction bs with
  | nil => intro s; rfl
  | cons b bs ih =>
    intro s
    cases b with
    | none => simp only [vevor_rx_task, received, ih]
    | some l => simp only [vevor_rx_task, received, ih, rx_loop_append]

/-! ## The encoder -/

theorem vevor_send_byte_drop (V : Nat) : (vevor_send_byte V).drop 2 = frame_items 8 V := by
  simp [vevor_send_byte, frame_items, msb_bits, send_bit_item, List.map_map, Function.comp_def]

theorem bit_item_true : bit_item true = ⟨false, 4000, true, 8100⟩ := by decide

theorem bit_item_false : bit_item false = ⟨false, 8000, true, 4100⟩ := by decide

/-- Records that match neither window are skipped while waiting for start. -/
theorem rx_loop_discard (cb : Bool) (ps : List Pulse) :
    ∀ s : RxState, s.waiting_for_start = true →
      (∀ p ∈ ps, pre_low p.item = false ∧ start_high p.item = false) →
      rx_loop cb s ps = (settle s ps, []) := by
  induction ps with
  | nil => intro s _ _; simp [rx_loop, settle_nil]
  | cons p ps ih =>
    intro s hw h
    have hp := h p (List.mem_cons_self _ _)
    rw [rx_loop, rx_item_discard cb s p hw hp.1 hp.2,
      ih _ (by rw [idle_check_waiting]; exact hw)
        (fun q hq => h q (List.mem_cons_of_mem _ hq)), settle_cons]
    rfl

theorem vevor_send_byte_no_window (V : Nat) :
    ∀ it ∈ vevor_send_byte V, pre_low it = false ∧ start_high it = false := by
  intro it hit
  simp only [vevor_send_byte, List.mem_cons, List.mem_map, send_bit_item] at hit
  rcases hit with rfl | rfl | ⟨i, _, rfl⟩
  · decide
  · decide
  · exact ⟨pre_low_bit_item _, start_high_bit_item _⟩

theorem settle_rx_init (ps : List Pulse) : settle rx_init ps = rx_init := by
  unfold settle; split <;> rfl

/-- C1 (as stated, refuted): the ten records of `vevor_send_byte(0xA5)`, fed
unchanged to the decoder in its initial state, produce no callback at all, so
not the single byte report of the round trip. -/
theorem C1_counterexample :
    (rx_loop true rx_init (stamp 1000 (vevor_send_byte 0xA5))).2 = [] ∧
    (rx_loop true rx_init (stamp 1000 (vevor_send_byte 0xA5))).2 ≠ [Call.byte 0xA5] := by
  decide

/-- C1 (amended): for every byte `V` and all clock readings, the ten records
of `vevor_send_byte(V)` fed unchanged to the decoder in its initial state make
no callback invocation and leave the locals as they were (still waiting for
start): no record has a high half inside the 28000..32000 start window. -/
theorem C1_encoder_output_is_skipped (cb : Bool) (V : Nat) (ps : List Pulse)
    (hm : ps.map Pulse.item = vevor_send_byte V) :
    rx_loop cb rx_init ps = (rx_init, []) ∧
    (∀ it ∈ vevor_send_byte V, start_high it = false) := by
  have hall : ∀ p ∈ ps, pre_low p.item = false ∧ start_high p.item = false := by
    intro p hp
    apply vevor_send_byte_no_window V
    rw [← hm]
    exact List.mem_map_of_mem _ hp
  refine ⟨?_, fun it hit => (vevor_send_byte_no_window V it hit).2⟩
  rw [rx_loop_discard cb ps rx_init rfl hall, settle_rx_init]

theorem C1_encoder_output_is_skipped_witness :
    rx_loop true rx_init (stamp 1000 (vevor_send_byte 0x3C)) = (rx_init, []) ∧
    (∀ it ∈ vevor_send_byte 0x3C, start_high it = false) :=
  C1_encoder_output_is_skipped true 0x3C (stamp 1000 (vevor_send_byte 0x3C)) (by decide)

/-- C2: for every byte `V` and all clock readings, the decoder in its initial
state fed a start record without low half and then the eight bit records of
`vevor_send_byte(V)` invokes the callback exactly once, as `(V, 0)`, and ends
waiting for start with `bit_count = 0` and `value = 0`. -/
theorem C2_byte_frame_decoded (V : Nat) (x0 : Pulse) (ps : List Pulse)
    (hV : V < 256) (hx : start_record x0.item = true)
    (hm : ps.map Pulse.item = (vevor_send_byte V).drop 2) :
    (rx_loop true rx_init (x0 :: ps)).2 = [Call.byte V] ∧
    ((rx_loop true rx_init (x0 :: ps)).2.map Call.args = [(V, 0)]) ∧
    (rx_loop true rx_init (x0 :: ps)).1.waiting_for_start = true ∧
    (rx_loop true rx_init (x0 :: ps)).1.bit_count = 0 ∧
    (rx_loop true rx_init (x0 :: ps)).1.value = 0 := by
  rw [vevor_send_byte_drop] at hm
  obtain ⟨t, ht⟩ := rx_loop_frame8 true rx_init x0 ps V hx rfl hm hV
  rw [settle_rx_init] at ht
  rw [ht]
  simp [rx_init, done_state, Call.args]

theorem C2_byte_frame_decoded_witness :
    (rx_loop true rx_init
      (stamp 5000 (sample_start :: (vevor_send_byte 0xA5).drop 2))).2
        = [Call.byte 0xA5] ∧
    ((rx_loop true rx_init
      (stamp 5000 (sample_start :: (vevor_send_byte 0xA5).drop 2))).2.map Call.args
        = [(0xA5, 0)]) ∧
    (rx_loop true rx_init
      (stamp 5000 (sample_start :: (vevor_send_byte 0xA5).drop 2))).1.waiting_for_start
        = true ∧
    (rx_loop true rx_init
      (stamp 5000 (sample_start :: (vevor_send_byte 0xA5).drop 2))).1.bit_count = 0 ∧
    (rx_loop true rx_init
      (stamp 5000 (sample_start :: (vevor_send_byte 0xA5).drop 2))).1.value = 0 :=
  C2_byte_frame_decoded 0xA5 ⟨sample_start, 5000, 5000⟩
    (stamp 5000 ((vevor_send_byte 0xA5).drop 2)) (by decide) (by decide) (by decide)

theorem settle_quiet (s : RxState) (ps : List Pulse)
    (h : quiet s.last_activity_us ps = true) : settle s ps = s := by
  simp [settle, h]

theorem quiet_cons (t : Int) (p : Pulse) (ps : List Pulse) :
    quiet t (p :: ps) = (!decide (p.now_us - t > IDLE_US) && quiet t ps) := by
  simp [quiet]

theorem settle_not_quiet (s : RxState) (ps : List Pulse)
    (h : quiet s.last_activity_us ps = false) :
    settle s ps = { s with got_8bit := false, got_16bit := false } := by
  simp [settle, h]

/-- C3: for every byte `V` and 16-bit word `W`, the decoder in its initial
state fed an 8-bit frame of `V` (start record without low half, eight bit
records) and then, with no later pulse processed more than 80000 us after the
completion time recorded for that frame, a preamble record, a start record
without low half and sixteen bit records of `W`, invokes the callback exactly
twice: first as `(V, 0)`, then as `(0, W)`. -/
theorem C3_byte_then_word (V W : Nat) (x0 : Pulse) (ps : List Pulse)
    (y1 y0 : Pulse) (qs : List Pulse)
    (hV : V < 256) (hW : W < 65536)
    (hx : start_record x0.item = true)
    (hm : ps.map Pulse.item = frame_items 8 V)
    (hy1 : pre_low y1.item = true)
    (hy0 : start_record y0.item = true)
    (hq : qs.map Pulse.item = frame_items 16 W)
    (hquiet : quiet (rx_loop true rx_init (x0 :: ps)).1.last_activity_us (y1 :: y0 :: qs) = true) :
    (rx_loop true rx_init ((x0 :: ps) ++ (y1 :: y0 :: qs))).2 = [Call.byte V, Call.word W] ∧
    (rx_loop true rx_init ((x0 :: ps) ++ (y1 :: y0 :: qs))).2.map Call.args
      = [(V, 0), (0, W)] := by
  obtain ⟨t, ht⟩ := rx_loop_frame8 true rx_init x0 ps V hx rfl hm hV
  rw [settle_rx_init] at ht
  rw [ht] at hquiet
  obtain ⟨u, hu⟩ := rx_loop_frame16 true (done_state true rx_init.got_16bit t 8) y1 y0 qs W
    rfl hy1 hy0 hq hW
  rw [settle_quiet _ _ hquiet] at hu
  rw [rx_loop_append, ht, hu]
  simp [rx_init, done_state, Call.args]

theorem C3_byte_then_word_witness :
    (rx_loop true rx_init
      ((⟨sample_start, 5000, 5000⟩ :: stamp 5000 (frame_items 8 0xA5)) ++
       (⟨sample_pre, 9000, 9000⟩ :: ⟨sample_start, 9000, 9000⟩ ::
          stamp 9000 (frame_items 16 0x1234)))).2 = [Call.byte 0xA5, Call.word 0x1234] ∧
    (rx_loop true rx_init
      ((⟨sample_start, 5000, 5000⟩ :: stamp 5000 (frame_items 8 0xA5)) ++
       (⟨sample_pre, 9000, 9000⟩ :: ⟨sample_start, 9000, 9000⟩ ::
          stamp 9000 (frame_items 16 0x1234)))).2.map Call.args = [(0xA5, 0), (0, 0x1234)] :=
  C3_byte_then_word 0xA5 0x1234 ⟨sample_start, 5000, 5000⟩
    (stamp 5000 (frame_items 8 0xA5))
    ⟨sample_pre, 9000, 9000⟩ ⟨sample_start, 9000, 9000⟩
    (stamp 9000 (frame_items 16 0x1234))
    (by decide) (by decide) (by decide) (by decide) (by decide) (by decide) (by decide)
    (by decide)

/-! ## Duplicate suppression -/

theorem frame_complete_room8 (cb : Bool) (s : RxState) (t : Int) :
    byte_calls (frame_complete cb s t).2 + room8 (frame_complete cb s t).1 ≤ room8 s := by
  unfold frame_complete room8 byte_calls
  cases cb <;> cases h8 : s.got_8bit <;> cases h16 : s.got_16bit <;>
    by_cases he : s.expected_bits = 8 <;> by_cases he2 : s.expected_bits = 16 <;>
    simp [h8, h16, he, he2, Call.isByte]

theorem frame_complete_room16 (cb : Bool) (s : RxState) (t : Int) :
    word_calls (frame_complete cb s t).2 + room16 (frame_complete cb s t).1 ≤ room16 s := by
  unfold frame_complete room16 word_calls
  cases cb <;> cases h8 : s.got_8bit <;> cases h16 : s.got_16bit <;>
    by_cases he : s.expected_bits = 8 <;> by_cases he2 : s.expected_bits = 16 <;>
    simp [h8, h16, he, he2, Call.isWord]

theorem rx_item_room8 (cb : Bool) (s : RxState) (p : Pulse) :
    byte_calls (rx_item cb s p).2 + room8 (rx_item cb s p).1 ≤ room8 (idle_check s p) := by
  unfold rx_item
  generalize idle_check s p = s1
  simp only []
  split
  · simp [byte_calls, room8]
  · split
    · simp only [byte_calls, List.countP_nil, Nat.zero_add]
      unfold start_check room8; split <;> simp
    · split
      · simp only [byte_calls, List.countP_nil, Nat.zero_add]
        unfold start_check room8; split <;> simp
      · split
        · refine Nat.le_trans (frame_complete_room8 _ _ _) ?_
          unfold start_check room8; split <;> simp
        · simp only [byte_calls, List.countP_nil, Nat.zero_add]
          unfold start_check room8; split <;> simp

theorem rx_item_room16 (cb : Bool) (s : RxState) (p : Pulse) :
    word_calls (rx_item cb s p).2 + room16 (rx_item cb s p).1 ≤ room16 (idle_check s p) := by
  unfold rx_item
  generalize idle_check s p = s1
  simp only []
  split
  · simp [word_calls, room16]
  · split
    · simp only [word_calls, List.countP_nil, Nat.zero_add]
      unfold start_check room16; split <;> simp
    · split
      · simp only [word_calls, List.countP_nil, Nat.zero_add]
        unfold start_check room16; split <;> simp
      · split
        · refine Nat.le_trans (frame_complete_room16 _ _ _) ?_
          unfold start_check room16; split <;> simp
        · simp only [word_calls, List.countP_nil, Nat.zero_add]
          unfold start_check room16; split <;> simp

theorem idle_check_of_not_fires (s : RxState) (p : Pulse) (h : idle_fires s p = false) :
    idle_check s p = s := by
  simp [idle_check, h]

theorem room8_le_one (s : RxState) : room8 s ≤ 1 := by
  unfold room8; split <;> simp

theorem room16_le_one (s : RxState) : room16 s ≤ 1 := by
  unfold room16; split <;> simp

theorem rx_loop_room8 (cb : Bool) (ps : List Pulse) :
    ∀ s : RxState, no_idle cb s ps = true →
      byte_calls (rx_loop cb s ps).2 + room8 (rx_loop cb s ps).1 ≤ room8 s := by
  induction ps with
  | nil => intro s _; simp [rx_loop, byte_calls]
  | cons p ps ih =>
    intro s h
    simp only [no_idle, Bool.and_eq_true, Bool.not_eq_true'] at h
    have h1 := rx_item_room8 cb s p
    rw [idle_check_of_not_fires s p h.1] at h1
    have h2 := ih _ h.2
    simp only [rx_loop, byte_calls, List.countP_append] at h1 h2 ⊢
    omega

theorem rx_loop_room16 (cb : Bool) (ps : List Pulse) :
    ∀ s : RxState, no_idle cb s ps = true →
      word_calls (rx_loop cb s ps).2 + room16 (rx_loop cb s ps).1 ≤ room16 s := by
  induction ps with
  | nil => intro s _; simp [rx_loop, word_calls]
  | cons p ps ih =>
    intro s h
    simp only [no_idle, Bool.and_eq_true, Bool.not_eq_true'] at h
    have h1 := rx_item_room16 cb s p
    rw [idle_check_of_not_fires s p h.1] at h1
    have h2 := ih _ h.2
    simp only [rx_loop, word_calls, List.countP_append] at h1 h2 ⊢
    omega

/-- C4: in every stretch of a run that starts at any pulse `p` (processed from
any locals `s`, so in particular at a pulse on which the idle check fires, or
at the first pulse of the run) and continues over pulses `ps` on none of which
the idle check fires, the callback is invoked at most once with a byte and at
most once with a word. -/
theorem C4_at_most_one_report_per_transaction (cb : Bool) (s : RxState) (p : Pulse)
    (ps : List Pulse) (h : no_idle cb (rx_item cb s p).1 ps = true) :
    byte_calls (rx_loop cb s (p :: ps)).2 ≤ 1 ∧ word_calls (rx_loop cb s (p :: ps)).2 ≤ 1 := by
  have a1 := rx_item_room8 cb s p
  have a2 := rx_loop_room8 cb ps _ h
  have a3 := room8_le_one (idle_check s p)
  have b1 := rx_item_room16 cb s p
  have b2 := rx_loop_room16 cb ps _ h
  have b3 := room16_le_one (idle_check s p)
  simp only [rx_loop, byte_calls, word_calls, List.countP_append] at a1 a2 b1 b2 ⊢
  omega

theorem C4_at_most_one_report_per_transaction_witness :
    byte_calls (rx_loop true rx_init
      (⟨sample_start, 5000, 5000⟩ ::
        (stamp 5000 (frame_items 8 0xA5) ++
          stamp 9000 (sample_start :: frame_items 8 0xA5)))).2 ≤ 1 ∧
    word_calls (rx_loop true rx_init
      (⟨sample_start, 5000, 5000⟩ ::
        (stamp 5000 (frame_items 8 0xA5) ++
          stamp 9000 (sample_start :: frame_items 8 0xA5)))).2 ≤ 1 :=
  C4_at_most_one_report_per_transaction true rx_init
    ⟨sample_start, 5000, 5000⟩
    (stamp 5000 (frame_items 8 0xA5) ++
      stamp 9000 (sample_start :: frame_items 8 0xA5))
    (by decide)

/-! ## Frames and transactions -/

/-- C5 (as stated, refuted): after one start record the decoder is collecting
bits and has reported no byte; a preamble record, a start record without low
half and the sixteen bit records of `0x1234` then make one callback invocation,
the byte `0x12`. -/
theorem C5_counterexample :
    (rx_loop true rx_init (stamp 5000 [sample_start])).1.got_8bit = false ∧
    (rx_loop true (rx_loop true rx_init (stamp 5000 [sample_start])).1
      (stamp 6000 (sample_pre :: sample_start ::
        frame_items 16 0x1234))).2 = [Call.byte 0x12] := by
  decide

/-- C5 (amended): for every 16-bit word `W` and all clock readings, the decoder
waiting for start with both report flags clear (its initial state is one such
state) fed a preamble record, a start record without low half and the sixteen
bit records of `W` makes no callback invocation and leaves both flags clear. -/
theorem C5_word_without_byte_dropped (cb : Bool) (s : RxState) (W : Nat) (y1 y0 : Pulse)
    (qs : List Pulse) (hW : W < 65536)
    (hw : s.waiting_for_start = true) (h8 : s.got_8bit = false) (h16 : s.got_16bit = false)
    (hy1 : pre_low y1.item = true) (hy0 : start_record y0.item = true)
    (hq : qs.map Pulse.item = frame_items 16 W) :
    (rx_loop cb s (y1 :: y0 :: qs)).2 = [] ∧
    (rx_loop cb s (y1 :: y0 :: qs)).1.got_8bit = false ∧
    (rx_loop cb s (y1 :: y0 :: qs)).1.got_16bit = false := by
  obtain ⟨u, hu⟩ := rx_loop_frame16 cb s y1 y0 qs W hw hy1 hy0 hq hW
  have hs8 : (settle s (y1 :: y0 :: qs)).got_8bit = false := by
    unfold settle; split <;> simp [h8]
  have hs16 : (settle s (y1 :: y0 :: qs)).got_16bit = false := by
    unfold settle; split <;> simp [h16]
  rw [hu, hs8, hs16]
  simp [done_state]

theorem C5_word_without_byte_dropped_witness :
    (rx_loop true rx_init (stamp 6000 (sample_pre :: sample_start ::
        frame_items 16 0x1234))).2 = [] ∧
    (rx_loop true rx_init (stamp 6000 (sample_pre :: sample_start ::
        frame_items 16 0x1234))).1.got_8bit = false ∧
    (rx_loop true rx_init (stamp 6000 (sample_pre :: sample_start ::
        frame_items 16 0x1234))).1.got_16bit = false :=
  C5_word_without_byte_dropped true rx_init 0x1234
    ⟨sample_pre, 6000, 6000⟩ ⟨sample_start, 6000, 6000⟩
    (stamp 6000 (frame_items 16 0x1234))
    (by decide) (by decide) (by decide) (by decide) (by decide) (by decide) (by decide)

/-- C6 (as stated, refuted): the frame of `0xA5` completes at clock reading
`100000`; the same frame processed again at reading `180000`, which is 80000 us
later, is not reported: one callback invocation in total, not two. -/
theorem C6_counterexample :
    (rx_loop true rx_init
      (stamp 100000 (sample_start :: frame_items 8 0xA5))).1.last_activity_us
        = 100000 ∧
    (rx_loop true rx_init
      (stamp 100000 (sample_start :: frame_items 8 0xA5) ++
       stamp 180000 (sample_start :: frame_items 8 0xA5))).2 = [Call.byte 0xA5] := by
  decide

/-- C6 (amended): for every byte `V`, when the 8-bit frame of `V` is fed twice
and every pulse of the second frame is processed at a clock reading more than
80000 us after the completion time recorded for the first frame, the callback
is invoked twice, each time as `(V, 0)`. -/
theorem C6_boundary_reenables_report (V : Nat) (x0 : Pulse) (ps : List Pulse)
    (y0 : Pulse) (qs : List Pulse) (hV : V < 256)
    (hx : start_record x0.item = true) (hm : ps.map Pulse.item = frame_items 8 V)
    (hy : start_record y0.item = true) (hq : qs.map Pulse.item = frame_items 8 V)
    (hlate : ∀ q ∈ y0 :: qs,
      q.now_us - (rx_loop true rx_init (x0 :: ps)).1.last_activity_us > 80000) :
    (rx_loop true rx_init ((x0 :: ps) ++ (y0 :: qs))).2 = [Call.byte V, Call.byte V] ∧
    (rx_loop true rx_init ((x0 :: ps) ++ (y0 :: qs))).2.map Call.args = [(V, 0), (V, 0)] := by
  obtain ⟨t, ht⟩ := rx_loop_frame8 true rx_init x0 ps V hx rfl hm hV
  rw [settle_rx_init] at ht
  rw [ht] at hlate
  obtain ⟨u, hu⟩ := rx_loop_frame8 true (done_state true rx_init.got_16bit t 8) y0 qs V
    hy rfl hq hV
  have hnq : quiet (done_state true rx_init.got_16bit t 8).last_activity_us (y0 :: qs)
      = false := by
    rw [quiet_cons]
    have := hlate y0 (List.mem_cons_self _ _)
    simp [IDLE_US, this]
  rw [settle_not_quiet _ _ hnq] at hu
  rw [rx_loop_append, ht, hu]
  simp [rx_init, Call.args]

theorem C6_boundary_reenables_report_witness :
    (rx_loop true rx_init
      ((⟨sample_start, 100000, 100000⟩ :: stamp 100000 (frame_items 8 0xA5)) ++
       (⟨sample_start, 180001, 180001⟩ :: stamp 180001 (frame_items 8 0xA5)))).2
        = [Call.byte 0xA5, Call.byte 0xA5] ∧
    (rx_loop true rx_init
      ((⟨sample_start, 100000, 100000⟩ :: stamp 100000 (frame_items 8 0xA5)) ++
       (⟨sample_start, 180001, 180001⟩ :: stamp 180001 (frame_items 8 0xA5)))).2.map
        Call.args = [(0xA5, 0), (0xA5, 0)] :=
  C6_boundary_reenables_report 0xA5 ⟨sample_start, 100000, 100000⟩
    (stamp 100000 (frame_items 8 0xA5)) ⟨sample_start, 180001, 180001⟩
    (stamp 180001 (frame_items 8 0xA5))
    (by decide) (by decide) (by decide) (by decide) (by decide) (by decide)

/-- C7: for every byte `V`, the decoder in its initial state fed the 8-bit
frame of `V` twice in succession, with no pulse of the second frame processed
more than 80000 us after the completion time recorded for the first, invokes
the callback exactly once in total, with byte `V`. -/
theorem C7_retransmission_reported_once (V : Nat) (x0 : Pulse) (ps : List Pulse)
    (y0 : Pulse) (qs : List Pulse) (hV : V < 256)
    (hx : start_record x0.item = true) (hm : ps.map Pulse.item = frame_items 8 V)
    (hy : start_record y0.item = true) (hq : qs.map Pulse.item = frame_items 8 V)
    (hsoon : ∀ q ∈ y0 :: qs,
      q.now_us - (rx_loop true rx_init (x0 :: ps)).1.last_activity_us ≤ 80000) :
    (rx_loop true rx_init ((x0 :: ps) ++ (y0 :: qs))).2 = [Call.byte V] ∧
    byte_calls (rx_loop true rx_init ((x0 :: ps) ++ (y0 :: qs))).2 = 1 := by
  obtain ⟨t, ht⟩ := rx_loop_frame8 true rx_init x0 ps V hx rfl hm hV
  rw [settle_rx_init] at ht
  rw [ht] at hsoon
  obtain ⟨u, hu⟩ := rx_loop_frame8 true (done_state true rx_init.got_16bit t 8) y0 qs V
    hy rfl hq hV
  have hqt : quiet (done_state true rx_init.got_16bit t 8).last_activity_us (y0 :: qs)
      = true := by
    unfold quiet
    rw [List.all_eq_true]
    intro q hqm
    have := hsoon q hqm
    simp only [IDLE_US, gt_iff_lt, Bool.not_eq_true', decide_eq_false_iff_not, not_lt]
    exact this
  rw [settle_quiet _ _ hqt] at hu
  rw [rx_loop_append, ht, hu]
  simp [rx_init, done_state, byte_calls, Call.isByte]

theorem C7_retransmission_reported_once_witness :
    (rx_loop true rx_init
      ((⟨sample_start, 100000, 100000⟩ :: stamp 100000 (frame_items 8 0xA5)) ++
       (⟨sample_start, 180000, 180000⟩ :: stamp 180000 (frame_items 8 0xA5)))).2
        = [Call.byte 0xA5] ∧
    byte_calls (rx_loop true rx_init
      ((⟨sample_start, 100000, 100000⟩ :: stamp 100000 (frame_items 8 0xA5)) ++
       (⟨sample_start, 180000, 180000⟩ :: stamp 180000 (frame_items 8 0xA5)))).2
        = 1 :=
  C7_retransmission_reported_once 0xA5 ⟨sample_start, 100000, 100000⟩
    (stamp 100000 (frame_items 8 0xA5)) ⟨sample_start, 180000, 180000⟩
    (stamp 180000 (frame_items 8 0xA5))
    (by decide) (by decide) (by decide) (by decide) (by decide) (by decide)

/-! ## Frame width -/

theorem frame_complete_expected (cb : Bool) (s : RxState) (t : Int) :
    (frame_complete cb s t).1.expected_bits = s.expected_bits := by
  unfold frame_complete
  simp only []
  split
  · rfl
  · split <;> rfl

theorem frame_complete_saw (cb : Bool) (s : RxState) (t : Int) :
    (frame_complete cb s t).1.saw_1ms_low = s.saw_1ms_low := by
  unfold frame_complete
  simp only []
  split
  · rfl
  · split <;> rfl

/-- A record with a start-window high half that is not taken as a preamble
latches the frame width from the preamble flag. -/
theorem rx_item_latch (cb : Bool) (s : RxState) (p : Pulse)
    (hp : s.waiting_for_start = false ∨ pre_low p.item = false)
    (hs : start_high p.item = true) :
    (rx_item cb s p).1.expected_bits = if s.saw_1ms_low then 16 else 8 := by
  have hc : ((idle_check s p).waiting_for_start && pre_low p.item) = false := by
    rw [idle_check_waiting]; rcases hp with h | h <;> simp [h]
  have h2 : (start_check (idle_check s p) p.item).expected_bits
      = if s.saw_1ms_low then 16 else 8 := by
    simp [start_check, hs, idle_check_saw]
  unfold rx_item
  simp only [hc, Bool.false_eq_true, if_false]
  split
  · exact h2
  · split
    · exact h2
    · split
      · rw [frame_complete_expected]; exact h2
      · exact h2

theorem rx_item_saw_false (cb : Bool) (s : RxState) (p : Pulse)
    (hsaw : s.saw_1ms_low = false) (hp : pre_low p.item = false) :
    (rx_item cb s p).1.saw_1ms_low = false := by
  have h2 : (start_check (idle_check s p) p.item).saw_1ms_low = false := by
    unfold start_check
    split
    · rfl
    · rw [idle_check_saw]; exact hsaw
  unfold rx_item
  simp only [hp, Bool.and_false, Bool.false_eq_true, if_false]
  split
  · exact h2
  · split
    · exact h2
    · split
      · rw [frame_complete_saw]; exact h2
      · exact h2

theorem rx_loop_saw_false (cb : Bool) (ps : List Pulse) :
    ∀ s : RxState, s.saw_1ms_low = false → (∀ m ∈ ps, pre_low m.item = false) →
      (rx_loop cb s ps).1.saw_1ms_low = false := by
  induction ps with
  | nil => intro s h _; simpa [rx_loop] using h
  | cons p ps ih =>
    intro s h hall
    simp only [rx_loop]
    exact ih _ (rx_item_saw_false cb s p h (hall p (List.mem_cons_self _ _)))
      (fun m hm => hall m (List.mem_cons_of_mem _ hm))

theorem rx_item_waiting_saw (cb : Bool) (s : RxState) (p : Pulse)
    (hw : s.waiting_for_start = true) (hsaw : s.saw_1ms_low = true)
    (hs : start_high p.item = false) :
    (rx_item cb s p).1.waiting_for_start = true ∧ (rx_item cb s p).1.saw_1ms_low = true := by
  cases hp : pre_low p.item
  · rw [rx_item_discard cb s p hw hp hs]
    exact ⟨by rw [idle_check_waiting]; exact hw, by rw [idle_check_saw]; exact hsaw⟩
  · rw [rx_item_pre cb s p hw hp]
    exact ⟨by simp [idle_check_waiting, hw], rfl⟩

theorem rx_loop_waiting_saw (cb : Bool) (ps : List Pulse) :
    ∀ s : RxState, s.waiting_for_start = true → s.saw_1ms_low = true →
      (∀ m ∈ ps, start_high m.item = false) →
      (rx_loop cb s ps).1.waiting_for_start = true ∧ (rx_loop cb s ps).1.saw_1ms_low = true := by
  induction ps with
  | nil => intro s h1 h2 _; simpa [rx_loop] using ⟨h1, h2⟩
  | cons p ps ih =>
    intro s h1 h2 hall
    simp only [rx_loop]
    have h := rx_item_waiting_saw cb s p h1 h2 (hall p (List.mem_cons_self _ _))
    exact ih _ h.1 h.2 (fun m hm => hall m (List.mem_cons_of_mem _ hm))

/-- C8 (as stated, refuted).  First run: a preamble pulse at reading `1000`,
then a start pulse at reading `1000000` on which the idle check fires, so no
preamble pulse was received since that transaction boundary; the start pulse
latches 16, not 8.  Second run: a start pulse, a low pulse of 1500 us, a second
start pulse; the second start pulse latches 8, not 16. -/
theorem C8_counterexample :
    (idle_fires (rx_loop true rx_init [⟨sample_pre, 1000, 1000⟩]).1
        ⟨sample_start, 1000000, 1000000⟩ = true ∧
      pre_low (sample_start : rmt_item32_t) = false ∧
      (rx_loop true rx_init [⟨sample_pre, 1000, 1000⟩,
        ⟨sample_start, 1000000, 1000000⟩]).1.expected_bits = 16) ∧
    (pre_low (sample_pre : rmt_item32_t) = true ∧
      (rx_loop true rx_init (stamp 5000 [sample_start, sample_pre,
        sample_start])).1.expected_bits = 8) := by
  decide

/-- C8 (amended): for all clock readings, a start pulse `p` (a start-window
high half, no preamble-window low half) latches `expected_bits = 8` when the
preamble flag was clear at an earlier point of the run (as at startup and
right after every start pulse) and no record with a preamble-window low half
came from then on; it latches `expected_bits = 16` when a preamble record `q`
was received while the decoder was waiting for start and no record with a
start-window high half came between `q` and `p`.  Idle checks firing in
between change neither outcome. -/
theorem C8_frame_width_selection (cb : Bool) (s : RxState) (q : Pulse) (mid : List Pulse)
    (p : Pulse) (hs : start_high p.item = true) (hp : pre_low p.item = false) :
    (s.saw_1ms_low = false → (∀ m ∈ mid, pre_low m.item = false) →
      (rx_loop cb s (mid ++ [p])).1.expected_bits = 8) ∧
    (s.waiting_for_start = true → pre_low q.item = true →
      (∀ m ∈ mid, start_high m.item = false) →
      (rx_loop cb s (q :: (mid ++ [p]))).1.expected_bits = 16) := by
  constructor
  · intro hsaw hall
    rw [rx_loop_append]
    simp only [rx_loop]
    rw [rx_item_latch cb _ p (Or.inr hp) hs, rx_loop_saw_false cb mid s hsaw hall]
    rfl
  · intro hw hq hall
    rw [rx_loop, rx_item_pre cb s q hw hq]
    simp only [rx_loop_append, rx_loop]
    have h := rx_loop_waiting_saw cb mid { idle_check s q with saw_1ms_low := true }
      (by simp [idle_check_waiting, hw]) rfl hall
    rw [rx_item_latch cb _ p (Or.inr hp) hs, h.2]
    rfl

theorem C8_frame_width_selection_witness :
    (rx_loop true rx_init
      ([⟨sample_sync, 1000, 1000⟩] ++
        [⟨sample_start, 1000000, 1000000⟩])).1.expected_bits = 8 ∧
    (rx_loop true rx_init
      (⟨sample_pre, 1000, 1000⟩ ::
        ([⟨sample_sync, 500000, 500000⟩] ++
          [⟨sample_start, 1000000, 1000000⟩]))).1.expected_bits = 16 :=
  ⟨(C8_frame_width_selection true rx_init ⟨sample_pre, 1000, 1000⟩
      [⟨sample_sync, 1000, 1000⟩]
      ⟨sample_start, 1000000, 1000000⟩ (by decide) (by decide)).1
      (by decide) (by decide),
   (C8_frame_width_selection true rx_init ⟨sample_pre, 1000, 1000⟩
      [⟨sample_sync, 500000, 500000⟩]
      ⟨sample_start, 1000000, 1000000⟩ (by decide) (by decide)).2
      (by decide) (by decide) (by decide)⟩

/-! ## Bit classification and the encoder's records -/

/-- C9: the decoder's bit decision `low_us < (BIT_ONE_LOW_US + BIT_ZERO_LOW_US) / 2`
is bit 1 for every low duration `d < 6000` and bit 0 for every `d` with
`6000 ≤ d ≤ 65535`. -/
theorem C9_bit_classification (d : Nat) :
    (d < 6000 → bit_of_low d = true) ∧ (6000 ≤ d → d ≤ 65535 → bit_of_low d = false) := by
  unfold bit_of_low BIT_ONE_LOW_US BIT_ZERO_LOW_US
  constructor
  · intro h; simp; omega
  · intro h _; simp; omega

theorem C9_bit_classification_witness :
    bit_of_low 5999 = true ∧ bit_of_low 6000 = false :=
  ⟨(C9_bit_classification 5999).1 (by decide),
   (C9_bit_classification 6000).2 (by decide) (by decide)⟩

/-- C10: for every byte `V`, `vevor_send_byte(V)` hands the sink exactly ten
records: `(high 10000, high 10000)`, `(high 5000, high 5000)`, and for each
`i` in `0..7` the record `(low L, high 12100 - L)` at index `i + 2`, where
`L = 4000` if bit `7 - i` of `V` is set and `8000` otherwise; `L ≤ 12100`, so
the subtraction does not wrap. -/
theorem C10_encoder_output (V : Nat) :
    (vevor_send_byte V).length = 10 ∧
    (vevor_send_byte V)[0]? = some ⟨true, 10000, true, 10000⟩ ∧
    (vevor_send_byte V)[1]? = some ⟨true, 5000, true, 5000⟩ ∧
    ∀ i : Fin 8,
      (vevor_send_byte V)[i.val + 2]? =
        some ⟨false, if V.testBit (7 - i.val) then 4000 else 8000,
              true, 12100 - (if V.testBit (7 - i.val) then 4000 else 8000)⟩ ∧
      (if V.testBit (7 - i.val) then 4000 else 8000) ≤ 12100 := by
  refine ⟨by simp [vevor_send_byte], rfl, rfl, ?_⟩
  intro i
  have hi := i.isLt
  constructor
  · simp only [vevor_send_byte, List.getElem?_cons_succ]
    rw [List.getElem?_map, List.getElem?_range hi]
    simp only [Option.map_some', send_bit_item, and_shift_ne_zero]
    cases V.testBit (7 - i.val) <;> simp [bit_item_true, bit_item_false]
  · split <;> decide

/-! ## Invariants of the run -/

/-- A property kept by every loop iteration holds along every run. -/
theorem rx_loop_invariant (cb : Bool) (I : RxState → Prop)
    (hstep : ∀ s p, I s → I (rx_item cb s p).1) (ps : List Pulse) :
    ∀ s, I s → I (rx_loop cb s ps).1 := by
  induction ps with
  | nil => intro s h; simpa [rx_loop] using h
  | cons p ps ih =>
    intro s h
    simp only [rx_loop]
    exact ih _ (hstep s p h)

theorem frame_complete_reset (cb : Bool) (s : RxState) (t : Int) :
    (frame_complete cb s t).1.waiting_for_start = true ∧
    (frame_complete cb s t).1.bit_count = 0 ∧
    (frame_complete cb s t).1.value = 0 ∧
    (frame_complete cb s t).1.last_activity_us = t := by
  unfold frame_complete
  simp only []
  split
  · simp
  · split <;> simp

theorem start_check_expected (s : RxState) (it : rmt_item32_t)
    (h : s.expected_bits = 8 ∨ s.expected_bits = 16) :
    (start_check s it).expected_bits = 8 ∨ (start_check s it).expected_bits = 16 := by
  unfold start_check
  split
  · cases s.saw_1ms_low <;> simp
  · exact h

/-- The width is 8 or 16, the counter is below the width, and the preamble
flag is clear while collecting: kept by every iteration. -/
theorem rx_item_inv (cb : Bool) (s : RxState) (p : Pulse)
    (h : (s.expected_bits = 8 ∨ s.expected_bits = 16) ∧ s.bit_count < s.expected_bits ∧
      (s.waiting_for_start = false → s.saw_1ms_low = false)) :
    ((rx_item cb s p).1.expected_bits = 8 ∨ (rx_item cb s p).1.expected_bits = 16) ∧
    (rx_item cb s p).1.bit_count < (rx_item cb s p).1.expected_bits ∧
    ((rx_item cb s p).1.waiting_for_start = false → (rx_item cb s p).1.saw_1ms_low = false) := by
  obtain ⟨he, hb, hs⟩ := h
  rw [← idle_check_expected s p] at he hb
  rw [← idle_check_bit_count s p] at hb
  rw [← idle_check_waiting s p, ← idle_check_saw s p] at hs
  unfold rx_item
  generalize idle_check s p = s1 at he hb hs
  simp only []
  split
  · rename_i hc
    simp only [Bool.and_eq_true] at hc
    exact ⟨he, hb, fun hw => by simp [hc.1] at hw⟩
  · have he2 := start_check_expected s1 p.item he
    have hb2 : (start_check s1 p.item).bit_count < (start_check s1 p.item).expected_bits := by
      unfold start_check
      split
      · cases s1.saw_1ms_low <;> simp
      · exact hb
    have hs2 : (start_check s1 p.item).waiting_for_start = false →
        (start_check s1 p.item).saw_1ms_low = false := by
      unfold start_check
      split
      · intro _; rfl
      · exact hs
    split
    · exact ⟨he2, hb2, hs2⟩
    · split
      · exact ⟨he2, hb2, hs2⟩
      · split
        · have hr := frame_complete_reset cb
            { start_check s1 p.item with
                value := shift_in (start_check s1 p.item).value (bit_of_low ‹Nat›),
                bit_count := (start_check s1 p.item).bit_count + 1 } p.done_us
          rw [frame_complete_expected] at *
          refine ⟨he2, ?_, fun hw => ?_⟩
          · rw [hr.2.1]; rcases he2 with h8 | h16
            · rw [h8]; decide
            · rw [h16]; decide
          · rw [hr.1] at hw; exact Bool.noConfusion hw
        · rename_i hne
          refine ⟨he2, ?_, hs2⟩
          simp only [beq_iff_eq] at hne
          show (start_check s1 p.item).bit_count + 1 < (start_check s1 p.item).expected_bits
          omega

/-! ## The completing iteration -/

theorem completes_iff (s : RxState) (p : Pulse) :
    completes s p = true ↔
      (s.waiting_for_start = false ∧ start_high p.item = false ∧
        (low_us p.item).isSome = true ∧ s.bit_count + 1 = s.expected_bits) := by
  unfold completes start_check
  cases hw : s.waiting_for_start <;> cases hp : pre_low p.item <;>
    cases hs : start_high p.item <;> cases hl : low_us p.item <;>
    cases hsaw : s.saw_1ms_low <;>
    simp [hw, hsaw, idle_check_waiting, idle_check_saw, idle_check_bit_count,
      idle_check_expected]

/-- What the iteration does to `last_activity_us`, to the calls and, when it
completes a frame, to the counter, the accumulator and the state. -/
theorem rx_item_completes (cb : Bool) (s : RxState) (p : Pulse) :
    (rx_item cb s p).1.last_activity_us
      = (if completes s p then p.done_us else s.last_activity_us) ∧
    (completes s p = false → (rx_item cb s p).2 = []) ∧
    (completes s p = true →
      (rx_item cb s p).1.waiting_for_start = true ∧
      (rx_item cb s p).1.bit_count = 0 ∧ (rx_item cb s p).1.value = 0) := by
  have hl := idle_check_last s p
  unfold rx_item completes
  generalize idle_check s p = s1 at hl
  have hl2 : (start_check s1 p.item).last_activity_us = s.last_activity_us := by
    unfold start_check; split <;> exact hl
  simp only []
  split
  · simp [hl]
  · split
    · simp [hl2]
    · split
      · simp [hl2]
      · split
        · rename_i low _ hc
          simp only [beq_iff_eq] at hc
          simp [hc, frame_complete_reset]
        · rename_i low _ hc
          simp only [beq_iff_eq] at hc
          simp [hc, hl2]

/-! ## Arbitrary bit records -/

theorem bit_record_iff (it : rmt_item32_t) :
    bit_record it = true ↔ (∃ d, low_us it = some d) ∧ start_high it = false := by
  unfold bit_record
  cases h : low_us it <;> cases hs : start_high it <;> simp

theorem shift_in_lt (v : Nat) (b : Bool) : shift_in v b < 2 ^ 16 := by
  unfold shift_in
  exact Nat.mod_lt _ (by decide)

theorem msb_sum_lt (bs : List Bool) : msb_sum bs < 2 ^ bs.length := by
  induction bs with
  | nil => simp [msb_sum]
  | cons b bs ih =>
    simp only [msb_sum, List.length_cons, Nat.pow_succ]
    cases b <;> simp <;> omega

theorem foldl_shift_in_eq (bs : List Bool) :
    ∀ v, v < 2 ^ 16 → bs.foldl shift_in v = (v * 2 ^ bs.length + msb_sum bs) % 2 ^ 16 := by
  induction bs with
  | nil =>
    intro v hv
    simp only [List.foldl_nil, List.length_nil, Nat.pow_zero, Nat.mul_one, msb_sum,
      Nat.add_zero]
    exact (Nat.mod_eq_of_lt hv).symm
  | cons b bs ih =>
    intro v _
    rw [List.foldl_cons, ih _ (shift_in_lt v b), shift_in_eq]
    simp only [List.length_cons, msb_sum]
    rw [Nat.add_mod, Nat.mod_mul_mod, ← Nat.add_mod]
    congr 1
    rw [Nat.pow_succ]
    ring

/-- At most sixteen bits shifted into an empty accumulator give the number
they write most significant bit first: the shift loses nothing. -/
theorem foldl_shift_in_zero (bs : List Bool) (hn : bs.length ≤ 16) :
    bs.foldl shift_in 0 = msb_sum bs := by
  rw [foldl_shift_in_eq bs 0 (by decide), Nat.zero_mul, Nat.zero_add]
  apply Nat.mod_eq_of_lt
  exact Nat.lt_of_lt_of_le (msb_sum_lt bs) (Nat.pow_le_pow_right (by decide) hn)

theorem bits_of_length (ps : List Pulse) : (bits_of ps).length = ps.length := by
  simp [bits_of]

/-- Records with a low half and no start-window high half that do not complete
the frame: each is shifted in, the counter advances, nothing is reported. -/
theorem rx_loop_bits_gen (cb : Bool) (ps : List Pulse) :
    ∀ s : RxState,
      (∀ p ∈ ps, bit_record p.item = true) →
      s.waiting_for_start = false →
      s.bit_count + ps.length < s.expected_bits →
      rx_loop cb s ps =
        ({ settle s ps with value := (bits_of ps).foldl shift_in s.value,
                            bit_count := s.bit_count + ps.length }, []) := by
  induction ps with
  | nil =>
    intro s _ _ _
    simp [rx_loop, settle_nil, bits_of]
  | cons p ps ih =>
    intro s hall hw hlt
    obtain ⟨⟨d, hd⟩, hs⟩ := (bit_record_iff p.item).mp (hall p (List.mem_cons_self _ _))
    have hstep := rx_item_bit cb s p d hw hs hd
      (by simp only [List.length_cons] at hlt; omega)
    simp only [rx_loop, hstep]
    rw [ih _ (fun q hq => hall q (List.mem_cons_of_mem _ hq))
      (by simp [idle_check_waiting, hw])
      (by simp only [List.length_cons] at hlt
          simp only [idle_check_expected]; omega)]
    simp only [List.nil_append, bits_of, List.map_cons, List.foldl_cons, List.length_cons,
      Prod.mk.injEq, and_true, hd, Option.getD_some]
    rw [← settle_cons]
    unfold settle
    simp only [idle_check_last]
    split <;> simp [Nat.add_assoc, Nat.add_comm 1, idle_check_last]

/-- From a collecting state with an empty accumulator, as many records with a
low half and no start-window high half as the width asks for run into the
frame-complete block with the number their bits write. -/
theorem rx_loop_collect_gen (cb : Bool) (ps : List Pulse) (pl : Pulse) (s : RxState)
    (hn : s.expected_bits ≤ 16) (hw : s.waiting_for_start = false) (hc : s.bit_count = 0)
    (hv : s.value = 0) (he : (ps ++ [pl]).length = s.expected_bits)
    (hall : ∀ p ∈ ps ++ [pl], bit_record p.item = true) :
    rx_loop cb s (ps ++ [pl]) =
      frame_complete cb
        { settle s (ps ++ [pl]) with value := msb_sum (bits_of (ps ++ [pl])),
                                     bit_count := s.expected_bits } pl.done_us := by
  simp only [List.length_append, List.length_singleton] at he
  have hbits := rx_loop_bits_gen cb ps s
    (fun q hq => hall q (List.mem_append_left _ hq)) hw (by omega)
  obtain ⟨⟨d, hd⟩, hs⟩ := (bit_record_iff pl.item).mp
    (hall pl (List.mem_append_right _ (List.mem_singleton_self _)))
  have hlast := rx_item_last cb
    { settle s ps with value := (bits_of ps).foldl shift_in s.value,
                       bit_count := s.bit_count + ps.length } pl d
    (by unfold settle; split <;> simp [hw])
    hs hd
    (by rw [hc]; unfold settle; split <;> simp [he])
  have hval : shift_in ((bits_of ps).foldl shift_in s.value) (bit_of_low d)
      = msb_sum (bits_of (ps ++ [pl])) := by
    rw [← foldl_shift_in_zero (bits_of (ps ++ [pl]))
      (by rw [bits_of_length, List.length_append, List.length_singleton]; omega)]
    simp [bits_of, List.foldl_append, hv, hd]
  have hstate :
      ({ idle_check
          { settle s ps with value := (bits_of ps).foldl shift_in s.value,
                             bit_count := s.bit_count + ps.length } pl with
          value := shift_in ((bits_of ps).foldl shift_in s.value) (bit_of_low d),
          bit_count := s.bit_count + ps.length + 1 } : RxState) =
      { settle s (ps ++ [pl]) with value := msb_sum (bits_of (ps ++ [pl])),
                                   bit_count := s.expected_bits } := by
    rw [← settle_concat, hval]
    simp only [hc, Nat.zero_add, he]
    unfold idle_check idle_fires settle
    split <;> split <;> simp_all
  rw [hstate] at hlast
  rw [rx_loop_append, hbits]
  simp only [rx_loop, List.nil_append, List.append_nil, hlast]

/-- A start record without low half followed by as many records with a low
half (and no start-window high half) as the start latched: the run ends in the
frame-complete block with the number their bits write. -/
theorem rx_loop_frame_gen (cb : Bool) (n : Nat) (x0 : Pulse) (ps : List Pulse) (pl : Pulse)
    (s : RxState) (hx : start_record x0.item = true)
    (hn : n = if s.saw_1ms_low then 16 else 8)
    (hlen : (ps ++ [pl]).length = n)
    (hall : ∀ p ∈ ps ++ [pl], bit_record p.item = true) :
    rx_loop cb s (x0 :: (ps ++ [pl])) =
      frame_complete cb
        { settle s (x0 :: (ps ++ [pl])) with
            expected_bits := n, saw_1ms_low := false, waiting_for_start := false,
            value := msb_sum (bits_of (ps ++ [pl])), bit_count := n } pl.done_us := by
  have hstart := rx_item_start cb s x0 (Or.inr (start_record_pre_low _ hx))
    (start_record_start_high _ hx) (start_record_low_us _ hx)
  have he : (start_check (idle_check s x0) x0.item).expected_bits = n := by
    simp [start_check, start_record_start_high _ hx, idle_check_saw, hn]
  have hcol := rx_loop_collect_gen cb ps pl (start_check (idle_check s x0) x0.item)
    (by rw [he, hn]; split <;> omega)
    (by simp [start_check, start_record_start_high _ hx])
    (by simp [start_check, start_record_start_high _ hx])
    (by simp [start_check, start_record_start_high _ hx])
    (by rw [he]; exact hlen)
    hall
  have hstate :
      ({ settle (start_check (idle_check s x0) x0.item) (ps ++ [pl]) with
          value := msb_sum (bits_of (ps ++ [pl])),
          bit_count := (start_check (idle_check s x0) x0.item).expected_bits } : RxState) =
      { settle s (x0 :: (ps ++ [pl])) with
          expected_bits := n, saw_1ms_low := false, waiting_for_start := false,
          value := msb_sum (bits_of (ps ++ [pl])), bit_count := n } := by
    rw [he, ← settle_cons]
    simp only [start_check, start_record_start_high _ hx, if_true]
    unfold settle
    simp only [idle_check_last]
    split <;> simp [idle_check_saw, idle_check_last, hn]
  rw [hstate] at hcol
  simp only [rx_loop, hstart, List.nil_append, hcol]

theorem settle_got_8bit_false (s : RxState) (ps : List Pulse) (h : s.got_8bit = false) :
    (settle s ps).got_8bit = false := by
  unfold settle; split
  · exact h
  · rfl

/-- A start record without low half and fewer than eight records with a low
half, from the initial state: nothing is reported, the preamble flag and the
byte flag stay clear. -/
theorem rx_loop_truncated (cb : Bool) (x0 : Pulse) (ks : List Pulse)
    (hx : start_record x0.item = true) (hk : ks.length < 8)
    (hks : ∀ k ∈ ks, bit_record k.item = true) :
    (rx_loop cb rx_init (x0 :: ks)).2 = [] ∧
    (rx_loop cb rx_init (x0 :: ks)).1.saw_1ms_low = false ∧
    (rx_loop cb rx_init (x0 :: ks)).1.got_8bit = false := by
  have hstart := rx_item_start cb rx_init x0 (Or.inr (start_record_pre_low _ hx))
    (start_record_start_high _ hx) (start_record_low_us _ hx)
  have hbits := rx_loop_bits_gen cb ks (start_check (idle_check rx_init x0) x0.item) hks
    (by simp [start_check, start_record_start_high _ hx])
    (by simp [start_check, start_record_start_high _ hx, idle_check_saw, rx_init]; omega)
  have h8 : (start_check (idle_check rx_init x0) x0.item).got_8bit = false := by
    simp [start_check, start_record_start_high _ hx, idle_check, rx_init]
  have hsaw : (start_check (idle_check rx_init x0) x0.item).saw_1ms_low = false := by
    simp [start_check, start_record_start_high _ hx]
  simp only [rx_loop, hstart, hbits, List.nil_append, true_and]
  constructor
  · unfold settle; split <;> exact hsaw
  · exact settle_got_8bit_false _ _ h8

/-! ## Counter invariant and callback shape -/

theorem rx_init_inv :
    (rx_init.expected_bits = 8 ∨ rx_init.expected_bits = 16) ∧
    rx_init.bit_count < rx_init.expected_bits ∧
    (rx_init.waiting_for_start = false → rx_init.saw_1ms_low = false) := by
  decide

/-- The three invariants along every run from the initial state. -/
theorem rx_loop_inv (cb : Bool) (ps : List Pulse) :
    ((rx_loop cb rx_init ps).1.expected_bits = 8 ∨ (rx_loop cb rx_init ps).1.expected_bits = 16) ∧
    (rx_loop cb rx_init ps).1.bit_count < (rx_loop cb rx_init ps).1.expected_bits ∧
    ((rx_loop cb rx_init ps).1.waiting_for_start = false →
      (rx_loop cb rx_init ps).1.saw_1ms_low = false) :=
  rx_loop_invariant cb
    (fun s => (s.expected_bits = 8 ∨ s.expected_bits = 16) ∧ s.bit_count < s.expected_bits ∧
      (s.waiting_for_start = false → s.saw_1ms_low = false))
    (fun s p h => rx_item_inv cb s p h) ps rx_init rx_init_inv

/-- C11: in every state reached from the initial state by any sequence of
pulses, `expected_bits` is 8 or 16 and `bit_count < expected_bits` (so the
counter incremented by the next bit never exceeds the width); and the iteration
in which the incremented counter equals the width (`completes`) leaves
`bit_count = 0`, `value = 0` and the decoder waiting for start. -/
theorem C11_bit_counter_invariant (cb : Bool) (ps : List Pulse) (p : Pulse) :
    ((rx_loop cb rx_init ps).1.expected_bits = 8 ∨ (rx_loop cb rx_init ps).1.expected_bits = 16) ∧
    (rx_loop cb rx_init ps).1.bit_count < (rx_loop cb rx_init ps).1.expected_bits ∧
    (completes (rx_loop cb rx_init ps).1 p = true →
      (rx_loop cb rx_init ps).1.bit_count + 1 = (rx_loop cb rx_init ps).1.expected_bits ∧
      (rx_item cb (rx_loop cb rx_init ps).1 p).1.bit_count = 0 ∧
      (rx_item cb (rx_loop cb rx_init ps).1 p).1.value = 0 ∧
      (rx_item cb (rx_loop cb rx_init ps).1 p).1.waiting_for_start = true) := by
  have hinv := rx_loop_inv cb ps
  refine ⟨hinv.1, hinv.2.1, fun hc => ?_⟩
  have h := (rx_item_completes cb (rx_loop cb rx_init ps).1 p).2.2 hc
  exact ⟨((completes_iff _ _).mp hc).2.2.2, h.2.1, h.2.2, h.1⟩

theorem C11_bit_counter_invariant_witness :
    ((rx_loop true rx_init
        (stamp 5000 (sample_start :: (frame_items 8 0xA5).take 7))).1.expected_bits = 8 ∨
      (rx_loop true rx_init
        (stamp 5000 (sample_start :: (frame_items 8 0xA5).take 7))).1.expected_bits = 16) ∧
    (rx_loop true rx_init (stamp 5000 (sample_start :: (frame_items 8 0xA5).take 7))).1.bit_count
      < (rx_loop true rx_init
          (stamp 5000 (sample_start :: (frame_items 8 0xA5).take 7))).1.expected_bits ∧
    ((rx_loop true rx_init
        (stamp 5000 (sample_start :: (frame_items 8 0xA5).take 7))).1.bit_count + 1
      = (rx_loop true rx_init
          (stamp 5000 (sample_start :: (frame_items 8 0xA5).take 7))).1.expected_bits ∧
     (rx_item true
        (rx_loop true rx_init (stamp 5000 (sample_start :: (frame_items 8 0xA5).take 7))).1
        ⟨bit_item true, 5000, 5000⟩).1.bit_count = 0 ∧
     (rx_item true
        (rx_loop true rx_init (stamp 5000 (sample_start :: (frame_items 8 0xA5).take 7))).1
        ⟨bit_item true, 5000, 5000⟩).1.value = 0 ∧
     (rx_item true
        (rx_loop true rx_init (stamp 5000 (sample_start :: (frame_items 8 0xA5).take 7))).1
        ⟨bit_item true, 5000, 5000⟩).1.waiting_for_start = true) :=
  have h := C11_bit_counter_invariant true
    (stamp 5000 (sample_start :: (frame_items 8 0xA5).take 7)) ⟨bit_item true, 5000, 5000⟩
  ⟨h.1, h.2.1, h.2.2 (by decide)⟩

theorem frame_complete_calls (cb : Bool) (s : RxState) (t : Int) :
    ∀ c ∈ (frame_complete cb s t).2,
      c = Call.byte (s.value &&& 0xFF) ∨ c = Call.word s.value := by
  intro c hc
  unfold frame_complete at hc
  simp only [] at hc
  split at hc
  · cases cb <;> simp at hc
    exact Or.inl hc
  · split at hc
    · cases cb <;> simp at hc
      exact Or.inr hc
    · simp at hc

/-- Every call of an iteration reports a value that was just stored into the
16-bit accumulator. -/
theorem rx_item_calls (cb : Bool) (s : RxState) (p : Pulse) :
    ∀ c ∈ (rx_item cb s p).2,
      ∃ v, v < 2 ^ 16 ∧ (c = Call.byte (v &&& 0xFF) ∨ c = Call.word v) := by
  intro c hc
  unfold rx_item at hc
  simp only [] at hc
  split at hc
  · simp at hc
  · split at hc
    · simp at hc
    · split at hc
      · simp at hc
      · split at hc
        · exact ⟨_, shift_in_lt _ _, frame_complete_calls cb _ _ c hc⟩
        · simp at hc

theorem rx_loop_calls (cb : Bool) (ps : List Pulse) :
    ∀ s, ∀ c ∈ (rx_loop cb s ps).2,
      ∃ v, v < 2 ^ 16 ∧ (c = Call.byte (v &&& 0xFF) ∨ c = Call.word v) := by
  induction ps with
  | nil => intro s c hc; simp [rx_loop] at hc
  | cons p ps ih =>
    intro s c hc
    simp only [rx_loop, List.mem_append] at hc
    rcases hc with h | h
    · exact rx_item_calls cb s p c h
    · exact ih _ c h

/-- C12: the frame-complete block invokes the callback either as `(b, 0)` with
`b = value & 0xFF` or as `(0, value)`; and every invocation of any run passes a
byte below 256 with word 0, or byte 0 with a word below 65536, never a
non-zero byte together with a non-zero word. -/
theorem C12_callback_shape (cb : Bool) (s : RxState) (t : Int) (ps : List Pulse) :
    (∀ c ∈ (frame_complete cb s t).2,
      (c = Call.byte (s.value &&& 0xFF) ∧ c.args = (s.value &&& 0xFF, 0)) ∨
      (c = Call.word s.value ∧ c.args = (0, s.value))) ∧
    (∀ c ∈ (rx_loop cb s ps).2,
      ((c.args.1 < 256 ∧ c.args.2 = 0) ∨ (c.args.1 = 0 ∧ c.args.2 < 65536)) ∧
      ¬ (c.args.1 ≠ 0 ∧ c.args.2 ≠ 0)) := by
  constructor
  · intro c hc
    rcases frame_complete_calls cb s t c hc with h | h
    · exact Or.inl ⟨h, by rw [h]; rfl⟩
    · exact Or.inr ⟨h, by rw [h]; rfl⟩
  · intro c hc
    obtain ⟨v, hv, h | h⟩ := rx_loop_calls cb ps s c hc
    · have hb : v &&& 0xFF < 256 := Nat.and_lt_two_pow v (n := 8) (by decide)
      subst h
      exact ⟨Or.inl ⟨hb, rfl⟩, fun h => h.2 rfl⟩
    · subst h
      exact ⟨Or.inr ⟨rfl, hv⟩, fun h => h.1 rfl⟩

theorem C12_callback_shape_witness :
    ((Call.byte 0xA5 = Call.byte ((0x1A5 : Nat) &&& 0xFF) ∧
        (Call.byte 0xA5).args = ((0x1A5 : Nat) &&& 0xFF, 0)) ∨
      (Call.byte 0xA5 = Call.word 0x1A5 ∧ (Call.byte 0xA5).args = (0, 0x1A5))) ∧
    (((Call.byte 0xA5).args.1 < 256 ∧ (Call.byte 0xA5).args.2 = 0) ∨
        ((Call.byte 0xA5).args.1 = 0 ∧ (Call.byte 0xA5).args.2 < 65536)) ∧
      ¬ ((Call.byte 0xA5).args.1 ≠ 0 ∧ (Call.byte 0xA5).args.2 ≠ 0) :=
  have h := C12_callback_shape true
    { rx_init with expected_bits := 8, value := 0x1A5 } 7000
    (stamp 5000 (sample_start :: frame_items 8 0xA5))
  ⟨h.1 (Call.byte 0xA5) (by decide), h.2 (Call.byte 0xA5) (by decide)⟩

/-! ## Single iterations: start, idle check, preamble, discard -/

theorem shift_in_zero (b : Bool) : shift_in 0 b = if b then 1 else 0 := by
  cases b <;> decide

/-- C13 (as stated, refuted): the record `(high 30000, low 4000)` has a high
half in the start window and no low half in the preamble window; processed
from the initial state it leaves `bit_count = 1` and `value = 1`, not zero. -/
theorem C13_counterexample :
    start_high sample_start_low = true ∧ pre_low sample_start_low = false ∧
    (rx_item true rx_init ⟨sample_start_low, 5000, 5000⟩).1.bit_count = 1 ∧
    (rx_item true rx_init ⟨sample_start_low, 5000, 5000⟩).1.value = 1 := by
  decide

/-- C13 (amended): for every decoder state and every record with a high half
in the start window (and, when the decoder is waiting for start, no low half
in the preamble window), the state after processing it has `expected_bits = 16`
if the preamble flag was set and 8 otherwise, the preamble flag cleared and the
decoder collecting bits, and nothing is reported; `bit_count = 0` and
`value = 0` when the record has no low half, and when it has one, that half is
decoded in the same iteration as the first bit of the frame: `bit_count = 1`
and `value` is that bit (1 iff its duration is below 6000). -/
theorem C13_start_pulse_step (cb : Bool) (s : RxState) (p : Pulse)
    (hs : start_high p.item = true)
    (hp : s.waiting_for_start = false ∨ pre_low p.item = false) :
    (rx_item cb s p).1.expected_bits = (if s.saw_1ms_low then 16 else 8) ∧
    (rx_item cb s p).1.saw_1ms_low = false ∧
    (rx_item cb s p).1.waiting_for_start = false ∧
    (rx_item cb s p).2 = [] ∧
    (low_us p.item = none →
      (rx_item cb s p).1.bit_count = 0 ∧ (rx_item cb s p).1.value = 0) ∧
    (∀ d, low_us p.item = some d →
      (rx_item cb s p).1.bit_count = 1 ∧
      (rx_item cb s p).1.value = if d < 6000 then 1 else 0) := by
  have hc : ((idle_check s p).waiting_for_start && pre_low p.item) = false := by
    rw [idle_check_waiting]; rcases hp with h | h <;> simp [h]
  have hbit : ∀ d, (if bit_of_low d = true then 1 else 0) = if d < 6000 then 1 else 0 := by
    intro d; simp [bit_of_low, BIT_ONE_LOW_US, BIT_ZERO_LOW_US]
  unfold rx_item
  simp only [hc, Bool.false_eq_true, if_false, start_check, hs, if_true, idle_check_saw]
  cases hl : low_us p.item with
  | none => simp
  | some d =>
    cases hsaw : s.saw_1ms_low <;> simp [shift_in_zero, hbit]

theorem C13_start_pulse_step_witness :
    (rx_item true rx_init ⟨sample_start_low, 5000, 5000⟩).1.expected_bits
      = (if rx_init.saw_1ms_low then 16 else 8) ∧
    (rx_item true rx_init ⟨sample_start_low, 5000, 5000⟩).1.saw_1ms_low = false ∧
    (rx_item true rx_init ⟨sample_start_low, 5000, 5000⟩).1.waiting_for_start = false ∧
    (rx_item true rx_init ⟨sample_start_low, 5000, 5000⟩).2 = [] ∧
    (rx_item true rx_init ⟨sample_start_low, 5000, 5000⟩).1.bit_count = 1 ∧
    (rx_item true rx_init ⟨sample_start_low, 5000, 5000⟩).1.value = (if 4000 < 6000 then 1 else 0) :=
  have h := C13_start_pulse_step true rx_init ⟨sample_start_low, 5000, 5000⟩
    (by decide) (Or.inr (by decide))
  ⟨h.1, h.2.1, h.2.2.1, h.2.2.2.1, h.2.2.2.2.2 4000 (by decide)⟩

/-- C15: when `now_us - last_activity_us > 80000` the idle check clears
`got_8bit` and `got_16bit` and leaves every other local as it was (state,
`bit_count`, `value`, `expected_bits`, preamble flag, `last_activity_us`);
when the difference is at most 80000 it changes nothing. -/
theorem C15_idle_check_frame (s : RxState) (p : Pulse) :
    (p.now_us - s.last_activity_us > 80000 →
      idle_check s p = { s with got_8bit := false, got_16bit := false } ∧
      (idle_check s p).waiting_for_start = s.waiting_for_start ∧
      (idle_check s p).bit_count = s.bit_count ∧
      (idle_check s p).value = s.value ∧
      (idle_check s p).expected_bits = s.expected_bits ∧
      (idle_check s p).saw_1ms_low = s.saw_1ms_low ∧
      (idle_check s p).last_activity_us = s.last_activity_us) ∧
    (p.now_us - s.last_activity_us ≤ 80000 → idle_check s p = s) := by
  constructor
  · intro h
    refine ⟨?_, idle_check_waiting s p, idle_check_bit_count s p, idle_check_value s p,
      idle_check_expected s p, idle_check_saw s p, idle_check_last s p⟩
    simp [idle_check, idle_fires, IDLE_US, h]
  · intro h
    have : ¬ (p.now_us - s.last_activity_us > 80000) := by omega
    simp [idle_check, idle_fires, IDLE_US, this]

theorem C15_idle_check_frame_witness :
    (idle_check (done_state true true 1000 16) ⟨sample_sync, 81001, 81001⟩
        = { done_state true true 1000 16 with got_8bit := false, got_16bit := false } ∧
      (idle_check (done_state true true 1000 16) ⟨sample_sync, 81001, 81001⟩).waiting_for_start
        = (done_state true true 1000 16).waiting_for_start ∧
      (idle_check (done_state true true 1000 16) ⟨sample_sync, 81001, 81001⟩).bit_count
        = (done_state true true 1000 16).bit_count ∧
      (idle_check (done_state true true 1000 16) ⟨sample_sync, 81001, 81001⟩).value
        = (done_state true true 1000 16).value ∧
      (idle_check (done_state true true 1000 16) ⟨sample_sync, 81001, 81001⟩).expected_bits
        = (done_state true true 1000 16).expected_bits ∧
      (idle_check (done_state true true 1000 16) ⟨sample_sync, 81001, 81001⟩).saw_1ms_low
        = (done_state true true 1000 16).saw_1ms_low ∧
      (idle_check (done_state true true 1000 16) ⟨sample_sync, 81001, 81001⟩).last_activity_us
        = (done_state true true 1000 16).last_activity_us) ∧
    idle_check (done_state true true 1000 16) ⟨sample_sync, 81000, 81000⟩
      = done_state true true 1000 16 :=
  ⟨(C15_idle_check_frame (done_state true true 1000 16) ⟨sample_sync, 81001, 81001⟩).1
      (by decide),
   (C15_idle_check_frame (done_state true true 1000 16) ⟨sample_sync, 81000, 81000⟩).2
      (by decide)⟩

/-- C16 (as stated, refuted): after the frame of `0xA5` completed at reading
`5000` the decoder is waiting for start with the byte flag set; the preamble
record processed at reading `90000` sets the preamble flag and also changes
`got_8bit`, from set to clear. -/
theorem C16_counterexample :
    (rx_loop true rx_init
      (stamp 5000 (sample_start :: frame_items 8 0xA5))).1.waiting_for_start = true ∧
    (rx_loop true rx_init (stamp 5000 (sample_start :: frame_items 8 0xA5))).1.got_8bit = true ∧
    pre_low sample_pre = true ∧
    (rx_item true (rx_loop true rx_init (stamp 5000 (sample_start :: frame_items 8 0xA5))).1
      ⟨sample_pre, 90000, 90000⟩).1.got_8bit = false := by
  decide

/-- C16 (amended): while the decoder is waiting for start, processing any
record with a low half in the preamble window sets the preamble flag and,
apart from the idle check at the top of the same iteration (which may clear
the two report flags), changes nothing else: the decoder stays waiting for
start, `bit_count`, `value`, `expected_bits` and `last_activity_us` are
unchanged and nothing is reported, whatever the other half of the record is,
a high half inside the start window included. -/
theorem C16_preamble_step (cb : Bool) (s : RxState) (p : Pulse)
    (hw : s.waiting_for_start = true) (hp : pre_low p.item = true) :
    rx_item cb s p = ({ idle_check s p with saw_1ms_low := true }, []) ∧
    (rx_item cb s p).1.saw_1ms_low = true ∧
    (rx_item cb s p).1.waiting_for_start = true ∧
    (rx_item cb s p).1.bit_count = s.bit_count ∧
    (rx_item cb s p).1.value = s.value ∧
    (rx_item cb s p).1.expected_bits = s.expected_bits ∧
    (rx_item cb s p).1.last_activity_us = s.last_activity_us ∧
    (rx_item cb s p).1.got_8bit = (s.got_8bit && !idle_fires s p) ∧
    (rx_item cb s p).1.got_16bit = (s.got_16bit && !idle_fires s p) ∧
    (rx_item cb s p).2 = [] := by
  have h := rx_item_pre cb s p hw hp
  rw [h]
  refine ⟨rfl, rfl, ?_, idle_check_bit_count s p, idle_check_value s p,
    idle_check_expected s p, idle_check_last s p, ?_, ?_, rfl⟩
  · exact (idle_check_waiting s p).trans hw
  · unfold idle_check; cases idle_fires s p <;> simp
  · unfold idle_check; cases idle_fires s p <;> simp

theorem C16_preamble_step_witness :
    rx_item true rx_init ⟨⟨false, 1500, true, 30000⟩, 5000, 5000⟩
      = ({ idle_check rx_init ⟨⟨false, 1500, true, 30000⟩, 5000, 5000⟩ with
            saw_1ms_low := true }, []) ∧
    (rx_item true rx_init ⟨⟨false, 1500, true, 30000⟩, 5000, 5000⟩).1.saw_1ms_low = true ∧
    (rx_item true rx_init ⟨⟨false, 1500, true, 30000⟩, 5000, 5000⟩).1.waiting_for_start = true ∧
    (rx_item true rx_init ⟨⟨false, 1500, true, 30000⟩, 5000, 5000⟩).1.bit_count
      = rx_init.bit_count ∧
    (rx_item true rx_init ⟨⟨false, 1500, true, 30000⟩, 5000, 5000⟩).1.value = rx_init.value ∧
    (rx_item true rx_init ⟨⟨false, 1500, true, 30000⟩, 5000, 5000⟩).1.expected_bits
      = rx_init.expected_bits ∧
    (rx_item true rx_init ⟨⟨false, 1500, true, 30000⟩, 5000, 5000⟩).1.last_activity_us
      = rx_init.last_activity_us ∧
    (rx_item true rx_init ⟨⟨false, 1500, true, 30000⟩, 5000, 5000⟩).1.got_8bit
      = (rx_init.got_8bit && !idle_fires rx_init ⟨⟨false, 1500, true, 30000⟩, 5000, 5000⟩) ∧
    (rx_item true rx_init ⟨⟨false, 1500, true, 30000⟩, 5000, 5000⟩).1.got_16bit
      = (rx_init.got_16bit && !idle_fires rx_init ⟨⟨false, 1500, true, 30000⟩, 5000, 5000⟩) ∧
    (rx_item true rx_init ⟨⟨false, 1500, true, 30000⟩, 5000, 5000⟩).2 = [] :=
  C16_preamble_step true rx_init ⟨⟨false, 1500, true, 30000⟩, 5000, 5000⟩
    (by decide) (by decide)

/-- C18: while the decoder is waiting for start, processing a record that has
neither a low half in the preamble window nor a high half in the start window
makes no callback invocation and leaves the state (waiting for start),
`bit_count`, `value`, `expected_bits`, the preamble flag and
`last_activity_us` unchanged; the two report flags are unchanged unless the
idle check fires, which clears them. -/
theorem C18_silent_discard (cb : Bool) (s : RxState) (p : Pulse)
    (hw : s.waiting_for_start = true) (hp : pre_low p.item = false)
    (hs : start_high p.item = false) :
    (rx_item cb s p).2 = [] ∧
    (rx_item cb s p).1.waiting_for_start = true ∧
    (rx_item cb s p).1.bit_count = s.bit_count ∧
    (rx_item cb s p).1.value = s.value ∧
    (rx_item cb s p).1.expected_bits = s.expected_bits ∧
    (rx_item cb s p).1.saw_1ms_low = s.saw_1ms_low ∧
    (rx_item cb s p).1.last_activity_us = s.last_activity_us ∧
    (rx_item cb s p).1.got_8bit = (s.got_8bit && !idle_fires s p) ∧
    (rx_item cb s p).1.got_16bit = (s.got_16bit && !idle_fires s p) := by
  rw [rx_item_discard cb s p hw hp hs]
  refine ⟨rfl, (idle_check_waiting s p).trans hw, idle_check_bit_count s p,
    idle_check_value s p, idle_check_expected s p, idle_check_saw s p,
    idle_check_last s p, ?_, ?_⟩
  · unfold idle_check; cases idle_fires s p <;> simp
  · unfold idle_check; cases idle_fires s p <;> simp

theorem C18_silent_discard_witness :
    (rx_item true (done_state true false 1000 8) ⟨bit_item true, 90000, 90000⟩).2 = [] ∧
    (rx_item true (done_state true false 1000 8)
      ⟨bit_item true, 90000, 90000⟩).1.waiting_for_start = true ∧
    (rx_item true (done_state true false 1000 8) ⟨bit_item true, 90000, 90000⟩).1.bit_count
      = (done_state true false 1000 8).bit_count ∧
    (rx_item true (done_state true false 1000 8) ⟨bit_item true, 90000, 90000⟩).1.value
      = (done_state true false 1000 8).value ∧
    (rx_item true (done_state true false 1000 8) ⟨bit_item true, 90000, 90000⟩).1.expected_bits
      = (done_state true false 1000 8).expected_bits ∧
    (rx_item true (done_state true false 1000 8) ⟨bit_item true, 90000, 90000⟩).1.saw_1ms_low
      = (done_state true false 1000 8).saw_1ms_low ∧
    (rx_item true (done_state true false 1000 8) ⟨bit_item true, 90000, 90000⟩).1.last_activity_us
      = (done_state true false 1000 8).last_activity_us ∧
    (rx_item true (done_state true false 1000 8) ⟨bit_item true, 90000, 90000⟩).1.got_8bit
      = ((done_state true false 1000 8).got_8bit &&
          !idle_fires (done_state true false 1000 8) ⟨bit_item true, 90000, 90000⟩) ∧
    (rx_item true (done_state true false 1000 8) ⟨bit_item true, 90000, 90000⟩).1.got_16bit
      = ((done_state true false 1000 8).got_16bit &&
          !idle_fires (done_state true false 1000 8) ⟨bit_item true, 90000, 90000⟩) :=
  C18_silent_discard true (done_state true false 1000 8) ⟨bit_item true, 90000, 90000⟩
    (by decide) (by decide) (by decide)

/-! ## Assembly of the value, truncated frames -/

/-- C14 (as stated, refuted): the start pulse `(high 30000, low 4000)` is
followed by eight records with a low half of 8000 us, whose bits write the
number 0; the frame completes on the seventh of them with the start record's
own low half as its first bit, and the byte reported is `0x80`. -/
theorem C14_counterexample :
    start_high sample_start_low = true ∧
    (∀ it ∈ frame_items 8 0, bit_record it = true) ∧
    msb_sum (bits_of (stamp 5000 (frame_items 8 0))) = 0 ∧
    (rx_loop true rx_init (stamp 5000 (sample_start_low :: frame_items 8 0))).2
      = [Call.byte 0x80] := by
  decide

/-- C14 (amended): for `n = expected_bits` in {8, 16} (16 when the preamble
flag is set, else 8), when a start record without low half is followed by `n`
records that each carry a low half and no start-window high half, the value
consumed by the frame-complete block is the sum of `b_i * 2 ^ (n - i)` with
`b_i = 1` iff the low duration selected from record `i` is below 6000; that
number is below `2 ^ n`, so the 16-bit shift loses no bit, and every report
made is the byte of that number for `n = 8` and the word of that number for
`n = 16`. -/
theorem C14_msb_first_assembly (s : RxState) (x0 : Pulse) (ps : List Pulse) (pl : Pulse)
    (n : Nat) (hx : start_record x0.item = true)
    (hn : n = if s.saw_1ms_low then 16 else 8)
    (hlen : (ps ++ [pl]).length = n)
    (hall : ∀ p ∈ ps ++ [pl], bit_record p.item = true) :
    rx_loop true s (x0 :: (ps ++ [pl])) =
      frame_complete true
        { settle s (x0 :: (ps ++ [pl])) with
            expected_bits := n, saw_1ms_low := false, waiting_for_start := false,
            value := msb_sum (bits_of (ps ++ [pl])), bit_count := n } pl.done_us ∧
    msb_sum (bits_of (ps ++ [pl])) < 2 ^ n ∧
    (∀ c ∈ (rx_loop true s (x0 :: (ps ++ [pl]))).2,
      (n = 8 ∧ c = Call.byte (msb_sum (bits_of (ps ++ [pl])))) ∨
      (n = 16 ∧ c = Call.word (msb_sum (bits_of (ps ++ [pl]))))) := by
  have hrun := rx_loop_frame_gen true n x0 ps pl s hx hn hlen hall
  have hlt : msb_sum (bits_of (ps ++ [pl])) < 2 ^ n := by
    have := msb_sum_lt (bits_of (ps ++ [pl]))
    rwa [bits_of_length, hlen] at this
  refine ⟨hrun, hlt, ?_⟩
  intro c hc
  rw [hrun] at hc
  have hn2 : n = 8 ∨ n = 16 := by rw [hn]; cases s.saw_1ms_low <;> simp
  unfold frame_complete at hc
  rcases hn2 with h8 | h16
  · subst h8
    have hb : msb_sum (bits_of (ps ++ [pl])) &&& 0xFF = msb_sum (bits_of (ps ++ [pl])) := by
      have := Nat.and_pow_two_sub_one_of_lt_two_pow (n := 8) hlt
      simpa using this
    simp only [] at hc
    split at hc
    · simp only [if_true, List.mem_singleton] at hc
      exact Or.inl ⟨rfl, by rw [hc, hb]⟩
    · split at hc
      · rename_i h1 h2; simp at h2
      · simp at hc
  · subst h16
    simp only [] at hc
    split at hc
    · rename_i h1; simp at h1
    · split at hc
      · simp only [if_true, List.mem_singleton] at hc
        exact Or.inr ⟨rfl, hc⟩
      · simp at hc

theorem C14_msb_first_assembly_witness :
    rx_loop true rx_init
        (⟨sample_start, 5000, 5000⟩ ::
          (stamp 5000 ((frame_items 8 0xA5).take 7) ++ [⟨⟨true, 8100, false, 4000⟩, 5000, 5000⟩])) =
      frame_complete true
        { settle rx_init
            (⟨sample_start, 5000, 5000⟩ ::
              (stamp 5000 ((frame_items 8 0xA5).take 7) ++
                [⟨⟨true, 8100, false, 4000⟩, 5000, 5000⟩])) with
            expected_bits := 8, saw_1ms_low := false, waiting_for_start := false,
            value := msb_sum (bits_of
              (stamp 5000 ((frame_items 8 0xA5).take 7) ++
                [⟨⟨true, 8100, false, 4000⟩, 5000, 5000⟩])),
            bit_count := 8 } 5000 ∧
    msb_sum (bits_of
      (stamp 5000 ((frame_items 8 0xA5).take 7) ++
        [⟨⟨true, 8100, false, 4000⟩, 5000, 5000⟩])) < 2 ^ 8 ∧
    ((8 = 8 ∧ Call.byte 0xA5 = Call.byte (msb_sum (bits_of
        (stamp 5000 ((frame_items 8 0xA5).take 7) ++
          [⟨⟨true, 8100, false, 4000⟩, 5000, 5000⟩])))) ∨
     (8 = 16 ∧ Call.byte 0xA5 = Call.word (msb_sum (bits_of
        (stamp 5000 ((frame_items 8 0xA5).take 7) ++
          [⟨⟨true, 8100, false, 4000⟩, 5000, 5000⟩]))))) :=
  have h := C14_msb_first_assembly rx_init ⟨sample_start, 5000, 5000⟩
    (stamp 5000 ((frame_items 8 0xA5).take 7)) ⟨⟨true, 8100, false, 4000⟩, 5000, 5000⟩ 8
    (by decide) (by decide) (by decide) (by decide)
  ⟨h.1, h.2.1, h.2.2 (Call.byte 0xA5) (by decide)⟩

/-- C17: for every byte `V`, every `k < 8` and every `k` records that carry a
low half and no start-window high half, the decoder in its initial state fed a
start record without low half, those `k` records, a second start record
without low half and the eight bit records of `V` invokes the callback exactly
once, with byte `V`; the truncated frame by itself produces no callback. -/
theorem C17_truncated_frame_overwritten (V : Nat) (x0 : Pulse) (ks : List Pulse) (y0 : Pulse)
    (qs : List Pulse) (hV : V < 256)
    (hx : start_record x0.item = true) (hk : ks.length < 8)
    (hks : ∀ k ∈ ks, bit_record k.item = true)
    (hy : start_record y0.item = true) (hq : qs.map Pulse.item = frame_items 8 V) :
    (rx_loop true rx_init ((x0 :: ks) ++ (y0 :: qs))).2 = [Call.byte V] ∧
    (rx_loop true rx_init ((x0 :: ks) ++ (y0 :: qs))).2.map Call.args = [(V, 0)] ∧
    (rx_loop true rx_init (x0 :: ks)).2 = [] := by
  obtain ⟨h1, h2, h3⟩ := rx_loop_truncated true x0 ks hx hk hks
  obtain ⟨t, ht⟩ := rx_loop_frame8 true (rx_loop true rx_init (x0 :: ks)).1 y0 qs V hy h2 hq hV
  rw [settle_got_8bit_false _ _ h3] at ht
  rw [rx_loop_append, h1, ht]
  simp [h1, Call.args]

theorem C17_truncated_frame_overwritten_witness :
    (rx_loop true rx_init
      ((⟨sample_start, 5000, 5000⟩ :: stamp 5000 ((frame_items 8 0xFF).take 3)) ++
        (⟨sample_start, 6000, 6000⟩ :: stamp 6000 (frame_items 8 0x3C)))).2 = [Call.byte 0x3C] ∧
    (rx_loop true rx_init
      ((⟨sample_start, 5000, 5000⟩ :: stamp 5000 ((frame_items 8 0xFF).take 3)) ++
        (⟨sample_start, 6000, 6000⟩ :: stamp 6000 (frame_items 8 0x3C)))).2.map Call.args
      = [(0x3C, 0)] ∧
    (rx_loop true rx_init
      (⟨sample_start, 5000, 5000⟩ :: stamp 5000 ((frame_items 8 0xFF).take 3))).2 = [] :=
  C17_truncated_frame_overwritten 0x3C ⟨sample_start, 5000, 5000⟩
    (stamp 5000 ((frame_items 8 0xFF).take 3)) ⟨sample_start, 6000, 6000⟩
    (stamp 6000 (frame_items 8 0x3C))
    (by decide) (by decide) (by decide) (by decide) (by decide) (by decide)

/-! ## Preamble flag while collecting, and what counts as activity -/

/-- C20: an iteration writes `last_activity_us` exactly when it reaches the
frame-complete block, that is when a record with a low half and no
start-window high half is processed while collecting and the incremented
counter equals the width; it is then written whatever the report flags and
the width are (also when nothing is reported). Iterations processed while
waiting for start (preamble pulses, discarded pulses), start pulses in any
state and bits that do not fill the frame leave `last_activity_us` as it was. -/
theorem C20_last_activity_written_on_completion (cb : Bool) (s : RxState) (p : Pulse) :
    (rx_item cb s p).1.last_activity_us
      = (if completes s p then p.done_us else s.last_activity_us) ∧
    (completes s p = true ↔
      (s.waiting_for_start = false ∧ start_high p.item = false ∧
        (low_us p.item).isSome = true ∧ s.bit_count + 1 = s.expected_bits)) ∧
    (completes s p = true → (rx_item cb s p).2 = [] →
      (rx_item cb s p).1.last_activity_us = p.done_us) ∧
    (s.waiting_for_start = true → (rx_item cb s p).1.last_activity_us = s.last_activity_us) ∧
    (start_high p.item = true → (rx_item cb s p).1.last_activity_us = s.last_activity_us) ∧
    (s.bit_count + 1 ≠ s.expected_bits →
      (rx_item cb s p).1.last_activity_us = s.last_activity_us) := by
  have h1 := (rx_item_completes cb s p).1
  have h2 := completes_iff s p
  refine ⟨h1, h2, ?_, ?_, ?_, ?_⟩
  · intro hc _
    rw [h1, hc]; rfl
  · intro hw
    have : completes s p = false := by
      cases hc : completes s p
      · rfl
      · have := (h2.mp hc).1; rw [hw] at this; exact Bool.noConfusion this
    rw [h1, this]; rfl
  · intro hs
    have : completes s p = false := by
      cases hc : completes s p
      · rfl
      · have := (h2.mp hc).2.1; rw [hs] at this; exact Bool.noConfusion this
    rw [h1, this]; rfl
  · intro hn
    have : completes s p = false := by
      cases hc : completes s p
      · rfl
      · exact absurd (h2.mp hc).2.2.2 hn
    rw [h1, this]; rfl

theorem C20_last_activity_written_on_completion_witness :
    (rx_item true { done_state true false 1000 8 with waiting_for_start := false, bit_count := 7 }
      ⟨bit_item true, 2000, 2500⟩).2 = [] ∧
    (rx_item true { done_state true false 1000 8 with waiting_for_start := false, bit_count := 7 }
      ⟨bit_item true, 2000, 2500⟩).1.last_activity_us = 2500 ∧
    (rx_item true rx_init ⟨sample_pre, 2000, 2500⟩).1.last_activity_us
      = rx_init.last_activity_us ∧
    (rx_item true rx_init ⟨sample_start, 2000, 2500⟩).1.last_activity_us
      = rx_init.last_activity_us ∧
    (rx_item true { rx_init with waiting_for_start := false, bit_count := 3 }
      ⟨bit_item true, 2000, 2500⟩).1.last_activity_us = rx_init.last_activity_us :=
  ⟨by decide,
   (C20_last_activity_written_on_completion true
      { done_state true false 1000 8 with waiting_for_start := false, bit_count := 7 }
      ⟨bit_item true, 2000, 2500⟩).2.2.1 (by decide) (by decide),
   (C20_last_activity_written_on_completion true rx_init
      ⟨sample_pre, 2000, 2500⟩).2.2.2.1 (by decide),
   (C20_last_activity_written_on_completion true rx_init
      ⟨sample_start, 2000, 2500⟩).2.2.2.2.1 (by decide),
   (C20_last_activity_written_on_completion true
      { rx_init with waiting_for_start := false, bit_count := 3 }
      ⟨bit_item true, 2000, 2500⟩).2.2.2.2.2 (by decide)⟩

end Vevor
